import Mathlib

/-!
# TimeLord: calendar arithmetic, date normaliser and DST evaluator

A shallow embedding of `software/my_shiny_metal_tooth/TimeLord.cpp`.

* The caller-owned `uint8_t[6]` time array is the structure `Time`; every
  store into it is reduced modulo 256 (`u8`).
* C `long` values are mathematical integers (`Int`); the C operators `/` and
  `%` on them are the truncating `Int.tdiv` and `Int.tmod`.
* Two properties of the target that the source leaves open are parameters
  (`Platform`): the width of `int` (the argument type of `absolute` and
  `signum`, and the type `uint16_t` is promoted to inside `dayNumber`) and
  whether plain `char` is signed (the locals of `inDst`).
-/

namespace TimeLord

/-! ## Machine integers -/

/-- Target properties the source depends on: the width of `int` in bits and
whether plain `char` is a signed type. -/
structure Platform where
  intBits : Nat
  charSigned : Bool
  deriving DecidableEq, Repr

/-- The 8-bit AVR target of the Arduino library: 16-bit `int`, signed `char`. -/
def avr : Platform := ⟨16, true⟩

/-- A 32-bit ARM target: 32-bit `int`, unsigned `char`. -/
def arm : Platform := ⟨32, false⟩

/-- Conversion to a signed type of `w` bits, wrapping modulo `2 ^ w`. -/
def wrapSigned (w : Nat) (n : Int) : Int :=
  (n + ((2 ^ (w - 1) : Nat) : Int)) % ((2 ^ w : Nat) : Int) - ((2 ^ (w - 1) : Nat) : Int)

/-- Conversion to `uint8_t`. -/
def u8 (n : Int) : Nat := (n % 256).toNat

/-- Conversion to `uint16_t`. -/
def u16 (n : Int) : Nat := (n % 65536).toNat

/-- Conversion to `int` on platform `P`. -/
def toInt (P : Platform) (n : Int) : Int := wrapSigned P.intBits n

/-- Conversion to plain `char` on platform `P`. -/
def toChar (P : Platform) (n : Int) : Int :=
  if P.charSigned then wrapSigned 8 n else n % 256

/-! ## Data model -/

/-- The time array `uint8_t[6]`, indexed by `tl_second` .. `tl_year`. -/
structure Time where
  second : Nat
  minute : Nat
  hour : Nat
  day : Nat
  month : Nat
  year : Nat
  deriving DecidableEq, Repr

/-- The private configuration fields of a `TimeLord` object. The two `float`
fields are kept as exact rationals. -/
structure Config where
  latitude : ℚ
  longitude : ℚ
  timezone : Int
  dstm1 : Nat
  dstw1 : Nat
  dstm2 : Nat
  dstw2 : Nat
  dstadv : Nat
  deriving DecidableEq, Repr

/-! ## Configuration -/

/-- Method `TimeLord::dstRules`: the five arguments are bytes; returns the success
flag together with the configuration after the call. -/
def dstRules (c : Config) (sMonth sSunday eMonth eSunday advance : Nat) : Bool × Config :=
  if sMonth = 0 ∨ sSunday = 0 ∨ eMonth = 0 ∨ eSunday = 0 then (false, c)
  else if sMonth > 12 ∨ sSunday > 4 ∨ eMonth > 12 ∨ eSunday > 4 then (false, c)
  else (true, { c with dstm1 := sMonth, dstw1 := sSunday, dstm2 := eMonth,
                       dstw2 := eSunday, dstadv := advance })

/-- The constructor `TimeLord::TimeLord`, run on an object whose fields hold
the arbitrary contents `u`. -/
def new (u : Config) : Config :=
  (dstRules { u with latitude := 27, longitude := -82, timezone := -300 } 3 2 11 1 60).2

/-- Method `TimeLord::position`: the two `float` arguments are taken as exact
rationals (no NaN or infinity). -/
def position (c : Config) (lat lon : ℚ) : Bool × Config :=
  if |lon| > 180 then (false, c)
  else if |lat| > 90 then (false, c)
  else (true, { c with latitude := lat, longitude := lon })

/-! ## Utility -/

/-- Method `TimeLord::signum`: the `int` value `-1` or `1` is converted to the
return type `uint8_t`, so a negative argument gives 255. -/
def signum (n : Int) : Nat := u8 (if n < 0 then -1 else 1)

/-- Method `TimeLord::absolute`. -/
def absolute (n : Int) : Int := if n < 0 then -n else n

/-- Method `TimeLord::timeZone`: the argument is an `int`. -/
def timeZone (c : Config) (tz : Int) : Bool × Config :=
  if absolute tz > 720 then (false, c)
  else (true, { c with timezone := tz })

/-- Method `TimeLord::isLeapYear`. -/
def isLeapYear (yr : Int) : Bool :=
  (Int.tmod yr 4 == 0 && Int.tmod yr 100 != 0) || Int.tmod yr 400 == 0

/-- Method `TimeLord::lengthOfMonth`. -/
def lengthOfMonth (when : Time) : Nat :=
  let yr : Int := 2000 + when.year
  let month : Nat := when.month
  if month = 2 then
    if isLeapYear yr then 29 else 28
  else
    let odd : Bool := (month &&& 1) == 1
    let odd : Bool := if month > 7 then !odd else odd
    if odd then 31 else 30

/-- Method `TimeLord::dayOfWeek`. -/
def dayOfWeek (when : Time) : Nat :=
  let year : Int := 2000 + when.year
  let month : Nat := when.month
  let day : Nat := when.day
  let month : Nat := if month < 3 then u8 (month + 12) else month
  let year : Int := if when.month < 3 then year - 1 else year
  let day : Nat := u8 (Int.tmod (Int.tdiv (13 * month + 3) 5 + day + year + Int.tdiv year 4
    - Int.tdiv year 100 + Int.tdiv year 400) 7)
  let day : Nat := u8 (Int.tmod (day + 1) 7)
  u8 (day + 1)

/-- Method `TimeLord::dayNumber`. The parameter `y` is a `uint16_t`: with a 16-bit
`int` it is promoted to `unsigned int` and the sum is formed modulo 65536,
with a wider `int` the sum is formed in `int` without overflow. -/
def dayNumber (P : Platform) (y m d : Nat) : Int :=
  let m : Nat := u8 (Int.tmod (m + 9) 12)
  let y : Nat := u16 (y - Int.tdiv m 10)
  let r : Int := 365 * y + y / 4 - y / 100 + y / 400 + Int.tdiv (m * 306 + 5) 10 + d - 1
  if P.intBits ≤ 16 then r % 65536 else r

/-! ## Date normaliser

`TimeLord::adjust` is four consecutive blocks (minutes, hours, days, months and
years); each block is one definition below, in source order, and `adjust` chains
them, handing the carry `nxt` from one block to the next. -/

/-- Minute block of `adjust` (the offset is in minutes): the array after the
block and the carry `nxt` in hours. -/
def adjustMinute (P : Platform) (when : Time) (offset : Int) : Time × Int :=
  let tmp : Int := when.minute + offset
  let nxt : Int := Int.tdiv tmp 60
  let mod : Int := Int.tmod (absolute (toInt P tmp)) 60
  let mod : Int := mod * signum (toInt P tmp) + 60
  let mod : Int := Int.tmod mod 60
  ({ when with minute := u8 mod }, nxt)

/-- Hour block of `adjust`: the array after the block and the carry `nxt` in days. -/
def adjustHour (P : Platform) (when : Time) (nxt : Int) : Time × Int :=
  let tmp : Int := nxt + when.hour
  let nxt : Int := Int.tdiv tmp 24
  let mod : Int := Int.tmod (absolute (toInt P tmp)) 24
  let mod : Int := mod * signum (toInt P tmp) + 24
  let mod : Int := Int.tmod mod 24
  ({ when with hour := u8 mod }, nxt)

/-- Day block of `adjust`: the two `if` statements run one after the other. -/
def adjustDay (when : Time) (nxt : Int) : Time :=
  let tmp : Int := nxt + when.day
  let mod : Int := lengthOfMonth when
  let over : Bool := tmp > mod
  let when : Time :=
    if over then { when with day := u8 (tmp - mod + 1), month := u8 (when.month + 1) } else when
  let tmp : Int := if over then tmp - mod else tmp
  if tmp < 1 then
    let when : Time := { when with month := u8 (when.month - 1) }
    let mod : Int := lengthOfMonth when
    { when with day := u8 (tmp + mod) }
  else when

/-- Month and year block of `adjust`. -/
def adjustYear (when : Time) : Time :=
  let tmp : Int := when.year
  let zero : Bool := when.month = 0
  let when : Time := if zero then { when with month := 12 } else when
  let tmp : Int := if zero then tmp - 1 else tmp
  let past : Bool := when.month > 12
  let when : Time := if past then { when with month := 1 } else when
  let tmp : Int := if past then tmp + 1 else tmp
  let tmp : Int := tmp + 100
  let tmp : Int := Int.tmod tmp 100
  { when with year := u8 tmp }

/-- Method `TimeLord::adjust`: the four blocks in source order. -/
def adjust (P : Platform) (when : Time) (offset : Int) : Time :=
  let minutes : Time × Int := adjustMinute P when offset
  let hours : Time × Int := adjustHour P minutes.1 minutes.2
  adjustYear (adjustDay hours.1 hours.2)

/-! ## Political time -/

/-- Method `TimeLord::inDst`: the input is assumed to be standard time. -/
def inDst (P : Platform) (c : Config) (p : Time) : Bool :=
  if p.month < c.dstm1 ∨ p.month > c.dstm2 then false
  else if p.month > c.dstm1 ∧ p.month < c.dstm2 then true
  else
    -- in either the start or the end month: how many sundays so far?
    let weekday : Int := toChar P (dayOfWeek p)
    let nSundays : Int := 0
    let prevSunday : Int := toChar P (p.day - weekday + 1)
    let nSundays : Int :=
      if prevSunday > 0 then toChar P (toChar P (Int.tdiv prevSunday 7) + 1) else nSundays
    if p.month = c.dstm1 then
      if nSundays < c.dstw1 then false
      else if nSundays > c.dstw1 then true
      else if weekday > 1 then true
      else if p.hour > 1 then true
      else false
    else
      if nSundays < c.dstw2 then true
      else if nSundays > c.dstw2 then false
      else if weekday > 1 then false
      else if p.hour > 1 then false
      else true

/-- Method `TimeLord::gmt`. -/
def gmt (P : Platform) (c : Config) (now : Time) : Time :=
  adjust P now (-c.timezone)

/-- Method `TimeLord::dst`. -/
def dst (P : Platform) (c : Config) (now : Time) : Time :=
  if inDst P c now then adjust P now c.dstadv else now

/-! ## Solar and astronomical -/

/-- Conversion of a floating-point value to an integer type: the fractional part
is discarded (truncation toward zero). -/
def truncQ (q : ℚ) : Int := if 0 ≤ q then ⌊q⌋ else ⌈q⌉

/-- Conversion to `uint64_t`. -/
def u64 (n : Int) : Nat := (n % 18446744073709551616).toNat

/-- Method `TimeLord::computeSun`. The trigonometric part is not computed here:
`ha` is the value of the hour-angle expression that the source tests with
`fabs (ha) > 1.0`, and `minutes` is the `int` value the source assigns from
`720 + 4 * (lon - ha) * 57.295779513082322 - eqt` after taking the arc cosine.
Returns the result flag and the time array after the call. -/
def computeSun (P : Platform) (c : Config) (when : Time) (_rs : Bool) (ha : ℚ)
    (minutes : Int) : Bool × Time :=
  -- we are in the (ant)arctic and there is no rise (or set) today
  if |ha| > 1 then (false, when)
  else
    -- convert from UTC back to our timezone
    let minutes : Int := toInt P (minutes + c.timezone)
    -- adjust the time array by minutes
    let when : Time := { when with hour := 0 }
    let when : Time := { when with minute := 0 }
    let when : Time := { when with second := 0 }
    (true, adjust P when minutes)

/-- Method `TimeLord::sunRise`. -/
def sunRise (P : Platform) (c : Config) (when : Time) (ha : ℚ) (minutes : Int) : Bool × Time :=
  computeSun P c when true ha minutes

/-- Method `TimeLord::sunSet`. -/
def sunSet (P : Platform) (c : Config) (when : Time) (ha : ℚ) (minutes : Int) : Bool × Time :=
  computeSun P c when false ha minutes

/-- Method `TimeLord::moonPhase`, with the `float` division and subtraction taken
exactly: days since Jan 6, 2000 over the period of 29.530588853 days, less its
integer part as the conversion to `long` yields it. -/
def moonPhase (P : Platform) (when : Time) : ℚ :=
  let d : Int := dayNumber P (2000 + when.year) when.month when.day - dayNumber P 2000 1 6
  let p : ℚ := (d : ℚ) / (29530588853 / 1000000000)
  let d : Int := truncQ p
  p - d

/-- Method `TimeLord::sidereal`: `second` and `d` are `uint64_t`, every operation
on them is reduced modulo 2 ^ 64. -/
def sidereal (P : Platform) (c : Config) (when : Time) (isLocal : Bool) : Time :=
  -- we are working in GMT time
  let when : Time := gmt P c when
  -- number of days since the epoch of Jan 1, 2000
  let d : Nat := u64 (dayNumber P (2000 + when.year) when.month when.day - dayNumber P 2000 1 1)
  -- calendar seconds since the epoch
  let second : Nat := u64 (d * 86400 + when.hour * 3600 + when.minute * 60 + when.second)
  -- multiply by the ratio of calendar to sidereal time
  let second : Nat := u64 (second * 1002737909)
  let second : Nat := second / 1000000000
  -- add sidereal time at the epoch
  let second : Nat := u64 (second + 23992)
  -- convert from gmt to local
  let second : Nat := if isLocal then u64 (second + u64 (truncQ (240 * c.longitude))) else second
  -- constrain to 1 calendar day
  let second : Nat := second % 86400
  -- update the array
  let minute : Int := second / 60
  let d : Nat := u64 (minute * 60)
  let when : Time := { when with second := u8 (second - d) }
  let when : Time := { when with hour := 0 }
  let when : Time := { when with minute := 0 }
  adjust P when minute

/-- Method `TimeLord::_season`: 0 winter, 1 spring, 2 summer, 3 fall. -/
def _season (when : Time) : Nat :=
  if when.month < 3 then 0
  else if when.month = 3 then
    if when.day < 22 then 0 else 1
  else if when.month < 6 then 1
  else if when.month = 6 then
    if when.day < 21 then 1 else 2
  else if when.month < 9 then 2
  else if when.month = 9 then
    if when.day < 22 then 2 else 3
  else if when.month < 12 then 3
  else if when.day < 21 then 3
  else 0

/-- Method `TimeLord::season`. -/
def season (c : Config) (when : Time) : Nat :=
  let result : Nat := _season when
  let result : Nat := if c.latitude < 0 then u8 (Int.tmod (result + 2) 4) else result
  result

/-! ## Specification vocabulary -/

/-- A valid Time Value: every field in its calendar range. -/
def Valid (t : Time) : Prop :=
  t.second < 60 ∧ t.minute < 60 ∧ t.hour < 24 ∧ 1 ≤ t.day ∧ t.day ≤ lengthOfMonth t ∧
    1 ≤ t.month ∧ t.month ≤ 12 ∧ t.year < 100

instance (t : Time) : Decidable (Valid t) :=
  inferInstanceAs (Decidable (_ ∧ _))

/-- Month length as a function of the two fields `lengthOfMonth` reads. -/
def monthLen (month year : Nat) : Nat := lengthOfMonth ⟨0, 0, 0, 0, month, year⟩

/-- The value the normaliser stores for a field with modulus `k` when the
running total is `x`: exact for `x ≥ 0`; for `x < 0` the factor 255 is the
`uint8_t` image of `-1` that `signum` returns. -/
def foldMod (k x : Int) : Int :=
  if 0 ≤ x then x % k else ((-x) % k * 255 + k) % k

/-- A configuration the setters accept: a timezone of at most twelve hours
either way, a DST rule with months 1-12 and Sunday ordinals 1-4, and a byte as
the advance. -/
def Accepted (c : Config) : Prop :=
  -720 ≤ c.timezone ∧ c.timezone ≤ 720 ∧ 1 ≤ c.dstm1 ∧ c.dstm1 ≤ 12 ∧ 1 ≤ c.dstw1 ∧
    c.dstw1 ≤ 4 ∧ 1 ≤ c.dstm2 ∧ c.dstm2 ≤ 12 ∧ 1 ≤ c.dstw2 ∧ c.dstw2 ≤ 4 ∧ c.dstadv ≤ 255

instance (c : Config) : Decidable (Accepted c) :=
  inferInstanceAs (Decidable (_ ∧ _))

/-- The calendar day after `t` (time of day kept): the next day of the month,
or day 1 of the next month after the last day, rolling into January of the
next year after December. -/
def nextDay (t : Time) : Time :=
  if t.day < lengthOfMonth t then { t with day := t.day + 1 }
  else if t.month < 12 then { t with day := 1, month := t.month + 1 }
  else { t with day := 1, month := 1, year := t.year + 1 }

/-- Number of days of the month of `t`, from day 1 up to and including the day
of `t`, whose `dayOfWeek` is 1 (Sunday). -/
def sundaysSoFar (t : Time) : Nat :=
  ((List.range t.day).filter (fun i => dayOfWeek { t with day := i + 1 } == 1)).length

/-- The reading of "at or after 02:00 on the `n`-th Sunday of the month": the
`n`-th Sunday has been reached, and if today is that Sunday the hour is at
least 2. -/
def atOrAfterNthSunday2am (n : Nat) (t : Time) : Bool :=
  decide (n ≤ sundaysSoFar t) &&
    !(decide (sundaysSoFar t = n) && decide (dayOfWeek t = 1) && decide (t.hour < 2))

/-- A valid date of 2000-2099 (the time of day is not constrained). -/
def ValidDate (t : Time) : Prop :=
  t.year < 100 ∧ 1 ≤ t.month ∧ t.month ≤ 12 ∧ 1 ≤ t.day ∧ t.day ≤ lengthOfMonth t

instance (t : Time) : Decidable (ValidDate t) :=
  inferInstanceAs (Decidable (_ ∧ _))

/-- The day number of the date of `t`. -/
def dayNumberOf (P : Platform) (t : Time) : Int :=
  dayNumber P (2000 + t.year) t.month t.day

/-- Minutes from the epoch of `dayNumber` to the minute of `t`. -/
def minuteCount (P : Platform) (t : Time) : Int :=
  dayNumber P (2000 + t.year) t.month t.day * 1440 + t.hour * 60 + t.minute

/-! ## Arithmetic helpers -/

theorem wrapSigned_small (w : Nat) (n : Int) (hw : 16 ≤ w) (h1 : -32768 ≤ n) (h2 : n < 32768) :
    wrapSigned w n = n := by
  unfold wrapSigned
  have hk : 2 ^ 15 ≤ 2 ^ (w - 1) := Nat.pow_le_pow_right (by decide) (by omega)
  have hd : 2 ^ w = 2 * 2 ^ (w - 1) := by
    have : w = (w - 1) + 1 := by omega
    conv_lhs => rw [this]
    rw [Nat.pow_succ]; ring
  rw [hd]
  generalize 2 ^ (w - 1) = k at hk
  have hk2 : (32768 : Int) ≤ (k : Int) := by
    have : (2 : Nat) ^ 15 = 32768 := by norm_num
    omega
  push_cast
  rw [Int.emod_eq_of_lt (by omega) (by omega)]
  omega

theorem toInt_small (P : Platform) (n : Int) (hw : 16 ≤ P.intBits) (h1 : -32768 ≤ n)
    (h2 : n < 32768) : toInt P n = n :=
  wrapSigned_small _ _ hw h1 h2

theorem tdiv_of_nonneg (a b : Int) (ha : 0 ≤ a) (hb : 0 ≤ b) : Int.tdiv a b = a / b :=
  Int.tdiv_eq_ediv ha hb

theorem tmod_of_nonneg (a b : Int) (ha : 0 ≤ a) (hb : 0 ≤ b) : Int.tmod a b = a % b :=
  Int.tmod_eq_emod ha hb

theorem lengthOfMonth_mk (s mi h d mo y : Nat) :
    lengthOfMonth ⟨s, mi, h, d, mo, y⟩ = monthLen mo y := rfl

theorem lengthOfMonth_eq (t : Time) : lengthOfMonth t = monthLen t.month t.year := rfl

theorem isLeapYear_iff (y : Nat) :
    isLeapYear (2000 + (y : Int)) = true ↔
      (((2000 + y) % 4 = 0 ∧ (2000 + y) % 100 ≠ 0) ∨ (2000 + y) % 400 = 0) := by
  unfold isLeapYear
  rw [tmod_of_nonneg _ 4 (by omega) (by omega), tmod_of_nonneg _ 100 (by omega) (by omega),
    tmod_of_nonneg _ 400 (by omega) (by omega)]
  simp only [Bool.or_eq_true, Bool.and_eq_true, beq_iff_eq, bne_iff_ne, ne_eq]
  omega

theorem monthLen_cases (mo y : Nat) (h1 : 1 ≤ mo) (h12 : mo ≤ 12) :
    monthLen mo y =
      if mo = 2 then (if isLeapYear (2000 + (y : Int)) then 29 else 28)
      else if mo = 4 ∨ mo = 6 ∨ mo = 9 ∨ mo = 11 then 30 else 31 := by
  unfold monthLen lengthOfMonth
  interval_cases mo <;> simp

theorem monthLen_bounds (mo y : Nat) : 28 ≤ monthLen mo y ∧ monthLen mo y ≤ 31 := by
  unfold monthLen lengthOfMonth
  simp only
  split_ifs <;> omega

/-! ## The normaliser, block by block -/

theorem u8_small (n : Int) (h0 : 0 ≤ n) (h : n < 256) : ((u8 n : Nat) : Int) = n := by
  unfold u8; omega

theorem tdiv_cases (a k : Int) (hk : 0 < k) :
    (0 ≤ a → Int.tdiv a k = a / k) ∧ (a < 0 → Int.tdiv a k = -((-a) / k)) := by
  constructor
  · intro ha
    exact Int.tdiv_eq_ediv ha (by omega)
  · intro ha
    have h := Int.neg_tdiv (-a) k
    rw [Int.neg_neg] at h
    rw [h, Int.tdiv_eq_ediv (by omega) (by omega)]

theorem foldMod_bounds (k x : Int) (hk : 0 < k) : 0 ≤ foldMod k x ∧ foldMod k x < k := by
  unfold foldMod
  have hk0 : k ≠ 0 := by omega
  split_ifs
  · exact ⟨Int.emod_nonneg _ hk0, Int.emod_lt_of_pos _ hk⟩
  · exact ⟨Int.emod_nonneg _ hk0, Int.emod_lt_of_pos _ hk⟩

theorem fold_eq (P : Platform) (hP : 16 ≤ P.intBits) (x k : Int) (h1 : -32768 ≤ x)
    (h2 : x < 32768) (hk : 0 < k) (hk2 : k ≤ 256) :
    u8 (Int.tmod (Int.tmod (absolute (toInt P x)) k * signum (toInt P x) + k) k) =
      (foldMod k x).toNat := by
  have hb := foldMod_bounds k x hk
  have hk0 : k ≠ 0 := by omega
  have key : Int.tmod (Int.tmod (absolute (toInt P x)) k * signum (toInt P x) + k) k =
      foldMod k x := by
    rw [toInt_small P x hP h1 h2]
    unfold absolute signum foldMod
    split_ifs with h3 h4 h4
    · omega
    · have : u8 (-1) = 255 := by decide
      rw [this]
      rw [tmod_of_nonneg (-x) k (by omega) (by omega)]
      have := Int.emod_nonneg (-x) hk0
      rw [tmod_of_nonneg _ k (by positivity) (by omega)]
      rfl
    · have : u8 1 = 1 := by decide
      rw [this]
      rw [tmod_of_nonneg x k (by omega) (by omega)]
      have := Int.emod_nonneg x hk0
      rw [tmod_of_nonneg _ k (by positivity) (by omega)]
      simp
    · omega
  rw [key]
  unfold u8
  rw [Int.emod_eq_of_lt hb.1 (by omega)]

theorem adjustMinute_eq (P : Platform) (hP : 16 ≤ P.intBits) (s mi h d mo y : Nat) (off : Int)
    (h1 : -32768 ≤ mi + off) (h2 : mi + off < 32768) :
    adjustMinute P ⟨s, mi, h, d, mo, y⟩ off =
      (⟨s, (foldMod 60 (mi + off)).toNat, h, d, mo, y⟩, Int.tdiv (mi + off) 60) := by
  unfold adjustMinute
  simp only [fold_eq P hP _ 60 h1 h2 (by omega) (by omega)]

theorem adjustHour_eq (P : Platform) (hP : 16 ≤ P.intBits) (s mi h d mo y : Nat) (nxt : Int)
    (h1 : -32768 ≤ nxt + h) (h2 : nxt + h < 32768) :
    adjustHour P ⟨s, mi, h, d, mo, y⟩ nxt =
      (⟨s, mi, (foldMod 24 (nxt + h)).toNat, d, mo, y⟩, Int.tdiv (nxt + h) 24) := by
  unfold adjustHour
  simp only [fold_eq P hP _ 24 h1 h2 (by omega) (by omega)]

/-- Day block when the carry keeps the day inside the month: nothing is stored. -/
theorem adjustDay_same (s mi h d mo y : Nat) (nxt : Int) (h1 : 1 ≤ nxt + d)
    (h2 : nxt + d ≤ monthLen mo y) :
    adjustDay ⟨s, mi, h, d, mo, y⟩ nxt = ⟨s, mi, h, d, mo, y⟩ := by
  unfold adjustDay
  simp only [lengthOfMonth_mk]
  have : ¬ (nxt + (d : Int) > (monthLen mo y : Int)) := by omega
  simp only [this, decide_False, Bool.false_eq_true, if_false]
  rw [if_neg (by omega)]

/-- Day block when the carry passes the end of the month. -/
theorem adjustDay_over (s mi h d mo y : Nat) (nxt : Int) (h2 : nxt + d > monthLen mo y) :
    adjustDay ⟨s, mi, h, d, mo, y⟩ nxt =
      ⟨s, mi, h, u8 (nxt + d - monthLen mo y + 1), u8 (mo + 1), y⟩ := by
  unfold adjustDay
  simp only [lengthOfMonth_mk]
  simp only [h2, decide_True, if_true]
  rw [if_neg (by omega)]

/-- Day block when the carry falls before the first day of the month. -/
theorem adjustDay_under (s mi h d mo y : Nat) (nxt : Int) (h1 : nxt + d < 1) :
    adjustDay ⟨s, mi, h, d, mo, y⟩ nxt =
      ⟨s, mi, h, u8 (nxt + d + monthLen (u8 (mo - 1)) y), u8 (mo - 1), y⟩ := by
  unfold adjustDay
  simp only [lengthOfMonth_mk]
  have hb := monthLen_bounds mo y
  have : ¬ (nxt + (d : Int) > (monthLen mo y : Int)) := by omega
  simp only [this, decide_False, Bool.false_eq_true, if_false]
  rw [if_pos (by omega)]

theorem adjustYear_eq (s mi h d mo y : Nat) (hy : y < 156) :
    adjustYear ⟨s, mi, h, d, mo, y⟩ =
      if mo = 0 then ⟨s, mi, h, d, 12, (y + 99) % 100⟩
      else if mo > 12 then ⟨s, mi, h, d, 1, (y + 1) % 100⟩
      else ⟨s, mi, h, d, mo, y % 100⟩ := by
  unfold adjustYear
  by_cases h0 : mo = 0
  · subst h0
    simp only [decide_True, if_true]
    simp
    rw [tmod_of_nonneg _ _ (by omega) (by omega)]
    unfold u8
    omega
  · by_cases h12 : mo > 12
    · simp only [h0, h12, decide_False, decide_True, if_true, if_false, Bool.false_eq_true]
      simp
      rw [tmod_of_nonneg _ _ (by omega) (by omega)]
      unfold u8
      omega
    · simp only [h0, h12, decide_False, if_false, Bool.false_eq_true]
      simp
      rw [tmod_of_nonneg _ _ (by omega) (by omega)]
      unfold u8
      omega

/-- Closed form of `adjust` on a valid value for offsets of at most half a day
either way: the day carry is 0 or 1. -/
theorem adjust_small (P : Platform) (hP : 16 ≤ P.intBits) (s mi h d mo y : Nat) (off : Int)
    (hmi : mi < 60) (hh : h < 24) (hd1 : 1 ≤ d) (hd : d ≤ monthLen mo y) (hmo1 : 1 ≤ mo)
    (hmo : mo ≤ 12) (hy : y < 100) (ho1 : -720 ≤ off) (ho2 : off ≤ 720) :
    adjust P ⟨s, mi, h, d, mo, y⟩ off =
      if Int.tdiv (Int.tdiv (mi + off) 60 + h) 24 + d > monthLen mo y then
        (if mo = 12 then
          ⟨s, (foldMod 60 (mi + off)).toNat, (foldMod 24 (Int.tdiv (mi + off) 60 + h)).toNat,
            2, 1, (y + 1) % 100⟩
        else
          ⟨s, (foldMod 60 (mi + off)).toNat, (foldMod 24 (Int.tdiv (mi + off) 60 + h)).toNat,
            2, mo + 1, y⟩)
      else
        ⟨s, (foldMod 60 (mi + off)).toNat, (foldMod 24 (Int.tdiv (mi + off) 60 + h)).toNat,
          d, mo, y⟩ := by
  have hq := tdiv_cases (mi + off) 60 (by omega)
  have hb := monthLen_bounds mo y
  unfold adjust
  simp only
  rw [adjustMinute_eq P hP _ _ _ _ _ _ _ (by omega) (by omega)]
  simp only
  generalize Int.tdiv (mi + off) 60 = q at *
  have hq1 : -12 ≤ q := by
    rcases Int.lt_or_le (mi + off) 0 with hn | hn
    · have := hq.2 hn; omega
    · have := hq.1 hn; omega
  have hq2 : q ≤ 12 := by
    rcases Int.lt_or_le (mi + off) 0 with hn | hn
    · have := hq.2 hn; omega
    · have := hq.1 hn; omega
  have hr := tdiv_cases (q + h) 24 (by omega)
  rw [adjustHour_eq P hP _ _ _ _ _ _ _ (by omega) (by omega)]
  simp only
  generalize Int.tdiv (q + h) 24 = r at *
  have hr1 : 0 ≤ r := by
    rcases Int.lt_or_le (q + h) 0 with hn | hn
    · have := hr.2 hn; omega
    · have := hr.1 hn; omega
  have hr2 : r ≤ 1 := by
    rcases Int.lt_or_le (q + h) 0 with hn | hn
    · have := hr.2 hn; omega
    · have := hr.1 hn; omega
  by_cases hov : r + d > monthLen mo y
  · rw [if_pos hov, adjustDay_over _ _ _ _ _ _ _ hov]
    have e1 : u8 (r + d - monthLen mo y + 1) = 2 := by unfold u8; omega
    have e2 : u8 ((mo : Int) + 1) = mo + 1 := by unfold u8; omega
    rw [e1, e2, adjustYear_eq _ _ _ _ _ _ (by omega)]
    by_cases h12 : mo = 12
    · subst h12; simp
    · rw [if_neg (by omega), if_neg (by omega), if_neg h12]
      simp only [Time.mk.injEq, true_and]
      omega
  · rw [if_neg hov, adjustDay_same _ _ _ _ _ _ _ (by omega) (by omega),
      adjustYear_eq _ _ _ _ _ _ (by omega)]
    rw [if_neg (by omega), if_neg (by omega)]
    simp only [Time.mk.injEq, true_and]
    omega

/-- Validity of the result of `adjust` for offsets of at most half a day. -/
theorem adjust_valid (P : Platform) (hP : 16 ≤ P.intBits) (t : Time) (ht : Valid t) (off : Int)
    (ho1 : -720 ≤ off) (ho2 : off ≤ 720) : Valid (adjust P t off) := by
  obtain ⟨s, mi, h, d, mo, y⟩ := t
  obtain ⟨hs, hmi, hh, hd1, hd, hmo1, hmo, hy⟩ := ht
  simp only [lengthOfMonth_mk] at hs hmi hh hd1 hd hmo1 hmo hy
  rw [adjust_small P hP s mi h d mo y off hmi hh hd1 hd hmo1 hmo hy ho1 ho2]
  have hm := foldMod_bounds 60 (mi + off) (by omega)
  have hh2 := foldMod_bounds 24 (Int.tdiv (mi + off) 60 + h) (by omega)
  have b1 := monthLen_bounds 1 ((y + 1) % 100)
  have b2 := monthLen_bounds (mo + 1) y
  split_ifs with h1 h2
  · refine ⟨hs, ?_, ?_, ?_, ?_, ?_, ?_, ?_⟩ <;> simp only [lengthOfMonth_mk] <;> omega
  · refine ⟨hs, ?_, ?_, ?_, ?_, ?_, ?_, ?_⟩ <;> simp only [lengthOfMonth_mk] <;> omega
  · refine ⟨hs, ?_, ?_, ?_, ?_, ?_, ?_, ?_⟩ <;> simp only [lengthOfMonth_mk] <;> omega

/-! ## Calendar arithmetic -/

theorem u16_small (n : Int) (h0 : 0 ≤ n) (h : n < 65536) : ((u16 n : Nat) : Int) = n := by
  unfold u16; omega

theorem monthLen_gregorian (mo y : Nat) (h1 : 1 ≤ mo) (h12 : mo ≤ 12) :
    monthLen mo y =
      if mo = 2 then
        (if ((2000 + y) % 4 = 0 ∧ (2000 + y) % 100 ≠ 0) ∨ (2000 + y) % 400 = 0 then 29 else 28)
      else if mo = 4 ∨ mo = 6 ∨ mo = 9 ∨ mo = 11 then 30 else 31 := by
  rw [monthLen_cases _ _ h1 h12]
  by_cases h2 : mo = 2
  · simp only [h2, if_true]
    by_cases hl : isLeapYear (2000 + (y : Int)) = true
    · rw [if_pos hl, if_pos ((isLeapYear_iff _).1 hl)]
    · rw [if_neg hl, if_neg (fun h => hl ((isLeapYear_iff _).2 h))]
  · simp only [h2, if_false]

/-- The arithmetic of `dayOfWeek` with the byte conversions and the truncating
operators resolved (all operands are non-negative and small). -/
theorem dayOfWeek_formula (s mi h d mo y : Nat) (hy : y < 100) (hm1 : 1 ≤ mo) (hm12 : mo ≤ 12)
    (hd : d ≤ 31) :
    (dayOfWeek ⟨s, mi, h, d, mo, y⟩ : Int) =
      (((13 * (if mo < 3 then (mo : Int) + 12 else mo) + 3) / 5 + d
        + (if mo < 3 then 1999 + (y : Int) else 2000 + y)
        + (if mo < 3 then 1999 + (y : Int) else 2000 + y) / 4
        - (if mo < 3 then 1999 + (y : Int) else 2000 + y) / 100
        + (if mo < 3 then 1999 + (y : Int) else 2000 + y) / 400) % 7 + 1) % 7 + 1 := by
  unfold dayOfWeek
  simp only
  by_cases h3 : mo < 3
  · simp only [h3, if_true]
    have e : u8 ((mo : Int) + 12) = mo + 12 := by unfold u8; omega
    rw [e]
    simp (disch := omega) only [Int.tdiv_eq_ediv, Int.tmod_eq_emod, u8_small]
    omega
  · simp only [h3, if_false]
    simp (disch := omega) only [Int.tdiv_eq_ediv, Int.tmod_eq_emod, u8_small]

theorem dayNumber_formula (P : Platform) (Y m d : Nat) (hY1 : 1 ≤ Y) (hY : Y < 65536)
    (hm : m ≤ 255) :
    dayNumber P Y m d =
      if P.intBits ≤ 16 then
        (365 * ((Y : Int) - ((m : Int) + 9) % 12 / 10) + ((Y : Int) - ((m : Int) + 9) % 12 / 10) / 4
          - ((Y : Int) - ((m : Int) + 9) % 12 / 10) / 100
          + ((Y : Int) - ((m : Int) + 9) % 12 / 10) / 400
          + ((((m : Int) + 9) % 12) * 306 + 5) / 10 + d - 1) % 65536
      else
        365 * ((Y : Int) - ((m : Int) + 9) % 12 / 10) + ((Y : Int) - ((m : Int) + 9) % 12 / 10) / 4
          - ((Y : Int) - ((m : Int) + 9) % 12 / 10) / 100
          + ((Y : Int) - ((m : Int) + 9) % 12 / 10) / 400
          + ((((m : Int) + 9) % 12) * 306 + 5) / 10 + d - 1 := by
  unfold dayNumber
  simp only
  simp (disch := omega) only [Int.tdiv_eq_ediv, Int.tmod_eq_emod, u8_small, u16_small]

/-- The day number of a date of 2000-2099 with the month shift resolved; with a
16-bit `int` the value is the same count less 11 * 65536. -/
theorem dayNumber_eq (P : Platform) (y mo d : Nat)
    (hy : y < 100) (hm1 : 1 ≤ mo) (hm12 : mo ≤ 12) (hd : d ≤ 255) :
    dayNumber P (2000 + y) mo d =
      365 * (if mo < 3 then 1999 + (y : Int) else 2000 + y)
        + (if mo < 3 then 1999 + (y : Int) else 2000 + y) / 4
        - (if mo < 3 then 1999 + (y : Int) else 2000 + y) / 100
        + (if mo < 3 then 1999 + (y : Int) else 2000 + y) / 400
        + ((if mo < 3 then (mo : Int) + 9 else (mo : Int) - 3) * 306 + 5) / 10 + d - 1
        - (if P.intBits ≤ 16 then 720896 else 0) := by
  rw [dayNumber_formula P (2000 + y) mo d (by omega) (by omega) (by omega)]
  have e1 : ((mo : Int) + 9) % 12 = if mo < 3 then (mo : Int) + 9 else (mo : Int) - 3 := by
    split_ifs <;> omega
  rw [e1]
  by_cases h3 : mo < 3
  · simp only [h3, if_true]
    have e2 : ((2000 + y : Nat) : Int) - ((mo : Int) + 9) / 10 = 1999 + (y : Int) := by omega
    rw [e2]
    split_ifs <;> omega
  · simp only [h3, if_false]
    have e2 : ((2000 + y : Nat) : Int) - ((mo : Int) - 3) / 10 = 2000 + (y : Int) := by omega
    rw [e2]
    split_ifs <;> omega

theorem dayNumber_epoch (P : Platform) :
    dayNumber P 2000 1 1 = 730425 - (if P.intBits ≤ 16 then 720896 else 0) := by
  have h := dayNumber_eq P 0 1 1 (by omega) (by omega) (by omega) (by omega)
  simp only [Nat.add_zero] at h
  rw [h]
  norm_num

theorem dayOfWeek_dayNumber (P : Platform) (s mi h d mo y : Nat)
    (hy : y < 100) (hm1 : 1 ≤ mo) (hm12 : mo ≤ 12) (hd : d ≤ 31) :
    (dayOfWeek ⟨s, mi, h, d, mo, y⟩ : Int) =
      (dayNumber P (2000 + y) mo d - dayNumber P 2000 1 1 + 6) % 7 + 1 := by
  rw [dayOfWeek_formula s mi h d mo y hy hm1 hm12 hd,
    dayNumber_eq P y mo d hy hm1 hm12 (by omega), dayNumber_epoch P]
  generalize (if P.intBits ≤ 16 then (720896 : Int) else 0) = w
  by_cases h3 : mo < 3
  · simp only [h3, if_true]
    generalize (1999 + (y : Int)) / 4 = q4
    generalize (1999 + (y : Int)) / 100 = q100
    generalize (1999 + (y : Int)) / 400 = q400
    interval_cases mo <;> omega
  · simp only [h3, if_false]
    generalize (2000 + (y : Int)) / 4 = q4
    generalize (2000 + (y : Int)) / 100 = q100
    generalize (2000 + (y : Int)) / 400 = q400
    interval_cases mo <;> omega

/-- The value of `dayNumber` on the following calendar day is one more. -/
theorem dayNumber_nextDay (P : Platform) (s mi h d mo y : Nat) (hy : y < 100) (hm1 : 1 ≤ mo)
    (hm12 : mo ≤ 12) (hd : d ≤ monthLen mo y)
    (hlast : ¬ (y = 99 ∧ mo = 12 ∧ d = 31)) :
    dayNumber P (2000 + (nextDay ⟨s, mi, h, d, mo, y⟩).year) (nextDay ⟨s, mi, h, d, mo, y⟩).month
        (nextDay ⟨s, mi, h, d, mo, y⟩).day = dayNumber P (2000 + y) mo d + 1 := by
  have hb := monthLen_bounds mo y
  have hg := monthLen_gregorian mo y hm1 hm12
  have h0 := dayNumber_eq P y mo d hy hm1 hm12 (by omega)
  unfold nextDay
  simp only [lengthOfMonth_mk]
  by_cases hlt : d < monthLen mo y
  · rw [if_pos hlt]
    simp only
    rw [dayNumber_eq P y mo (d + 1) hy hm1 hm12 (by omega), h0]
    push_cast
    omega
  · rw [if_neg hlt]
    have hde : d = monthLen mo y := by omega
    by_cases hm : mo < 12
    · rw [if_pos hm]
      simp only
      rw [dayNumber_eq P y (mo + 1) 1 hy (by omega) (by omega) (by omega), h0]
      generalize (if P.intBits ≤ 16 then (720896 : Int) else 0) = w
      rw [hg] at hde
      by_cases h2 : mo = 2
      · subst h2
        simp only [if_true] at hde
        norm_num
        split_ifs at hde <;> omega
      · simp only [h2, if_false] at hde
        have h3 : ((mo + 1 < 3) ↔ (mo < 3)) := by omega
        simp only [h3]
        generalize (if mo < 3 then 1999 + (y : Int) else 2000 + y) = yr
        split_ifs at hde <;> interval_cases mo <;> simp at hde ⊢ <;> omega
    · rw [if_neg hm]
      have hmo : mo = 12 := by omega
      subst hmo
      simp only
      rw [hg] at hde
      norm_num at hde
      have hy1 : y + 1 < 100 := by omega
      rw [dayNumber_eq P (y + 1) 1 1 hy1 (by omega) (by omega) (by omega), h0]
      generalize (if P.intBits ≤ 16 then (720896 : Int) else 0) = w
      norm_num
      omega

theorem nextDay_bounds (s mi h d mo y : Nat) (hy : y < 100) (hm1 : 1 ≤ mo) (hm12 : mo ≤ 12)
    (hd : d ≤ monthLen mo y) (hlast : ¬ (y = 99 ∧ mo = 12 ∧ d = 31)) :
    (nextDay ⟨s, mi, h, d, mo, y⟩).year < 100 ∧ 1 ≤ (nextDay ⟨s, mi, h, d, mo, y⟩).month ∧
      (nextDay ⟨s, mi, h, d, mo, y⟩).month ≤ 12 ∧ (nextDay ⟨s, mi, h, d, mo, y⟩).day ≤ 31 := by
  have hb := monthLen_bounds mo y
  have hg := monthLen_gregorian mo y hm1 hm12
  unfold nextDay
  simp only [lengthOfMonth_mk]
  by_cases hlt : d < monthLen mo y
  · rw [if_pos hlt]
    simp only
    omega
  · rw [if_neg hlt]
    by_cases hm : mo < 12
    · rw [if_pos hm]
      simp only
      omega
    · rw [if_neg hm]
      have hmo : mo = 12 := by omega
      subst hmo
      simp only
      norm_num at hg
      omega

theorem dayOfWeek_dayNumber_time (P : Platform) (t : Time) (hy : t.year < 100)
    (hm1 : 1 ≤ t.month) (hm12 : t.month ≤ 12) (hd : t.day ≤ 31) :
    (dayOfWeek t : Int) =
      (dayNumber P (2000 + t.year) t.month t.day - dayNumber P 2000 1 1 + 6) % 7 + 1 := by
  obtain ⟨s, mi, h, d, mo, y⟩ := t
  exact dayOfWeek_dayNumber P s mi h d mo y hy hm1 hm12 hd

/-- The weekday of the following calendar day is the cyclic successor. -/
theorem dayOfWeek_nextDay (s mi h d mo y : Nat) (hy : y < 100) (hm1 : 1 ≤ mo) (hm12 : mo ≤ 12)
    (hd : d ≤ monthLen mo y) (hlast : ¬ (y = 99 ∧ mo = 12 ∧ d = 31)) :
    dayOfWeek (nextDay ⟨s, mi, h, d, mo, y⟩) = dayOfWeek ⟨s, mi, h, d, mo, y⟩ % 7 + 1 := by
  have hb := monthLen_bounds mo y
  obtain ⟨n1, n2, n3, n4⟩ := nextDay_bounds s mi h d mo y hy hm1 hm12 hd hlast
  have h1 := dayOfWeek_dayNumber_time avr _ n1 n2 n3 n4
  have h0 := dayOfWeek_dayNumber avr s mi h d mo y hy hm1 hm12 (by omega)
  rw [dayNumber_nextDay avr s mi h d mo y hy hm1 hm12 hd hlast] at h1
  omega

/-- C9: `dayOfWeek` is the true weekday under 1 = Sunday .. 7 = Saturday: for
every valid date of 2000-2099 the result lies in [1,7], equals
((dayNumber(2000+year, month, day) - dayNumber(2000, 1, 1) + 6) mod 7) + 1, and
the following calendar day (up to Dec 31, 2099) gets the cyclic successor. -/
theorem dayOfWeek_true_weekday (P : Platform) (_hP : P.intBits = 16 ∨ 32 ≤ P.intBits) (t : Time)
    (hy : t.year < 100) (hm1 : 1 ≤ t.month) (hm12 : t.month ≤ 12) (hd1 : 1 ≤ t.day)
    (hd : t.day ≤ lengthOfMonth t) :
    (1 ≤ dayOfWeek t ∧ dayOfWeek t ≤ 7) ∧
      (dayOfWeek t : Int) =
        (dayNumber P (2000 + t.year) t.month t.day - dayNumber P 2000 1 1 + 6) % 7 + 1 ∧
      (¬ (t.year = 99 ∧ t.month = 12 ∧ t.day = 31) →
        dayOfWeek (nextDay t) = dayOfWeek t % 7 + 1) := by
  obtain ⟨s, mi, h, d, mo, y⟩ := t
  simp only [lengthOfMonth_mk] at hy hm1 hm12 hd1 hd
  have hb := monthLen_bounds mo y
  have hf := dayOfWeek_dayNumber P s mi h d mo y hy hm1 hm12 (by omega)
  refine ⟨?_, hf, fun hlast => dayOfWeek_nextDay s mi h d mo y hy hm1 hm12 hd hlast⟩
  omega

/-- Jan 1, 2000 is a Saturday: `dayOfWeek` gives 7, and Jan 2 gives 1 (instance of C9). -/
theorem dayOfWeek_true_weekday_witness :
    dayOfWeek ⟨0, 0, 0, 1, 1, 0⟩ = 7 ∧
      (dayOfWeek ⟨0, 0, 0, 1, 1, 0⟩ : Int) =
        (dayNumber avr (2000 + 0) 1 1 - dayNumber avr 2000 1 1 + 6) % 7 + 1 ∧
      dayOfWeek (nextDay ⟨0, 0, 0, 1, 1, 0⟩) = dayOfWeek ⟨0, 0, 0, 1, 1, 0⟩ % 7 + 1 :=
  have h := dayOfWeek_true_weekday avr (Or.inl rfl) ⟨0, 0, 0, 1, 1, 0⟩ (by decide) (by decide)
    (by decide) (by decide) (by decide)
  ⟨by decide, h.2.1, h.2.2 (by decide)⟩

/-- C10: for every year 0-99 and month 1-12, `lengthOfMonth` is 29 for February
when 2000+year is a Gregorian leap year (divisible by 4 and not by 100, or
divisible by 400) and 28 otherwise, 30 for April, June, September and November,
and 31 for every other month. -/
theorem lengthOfMonth_gregorian (t : Time) (_hy : t.year < 100) (hm1 : 1 ≤ t.month)
    (hm12 : t.month ≤ 12) :
    lengthOfMonth t =
      if t.month = 2 then
        (if ((2000 + t.year) % 4 = 0 ∧ (2000 + t.year) % 100 ≠ 0) ∨ (2000 + t.year) % 400 = 0
          then 29 else 28)
      else if t.month = 4 ∨ t.month = 6 ∨ t.month = 9 ∨ t.month = 11 then 30 else 31 := by
  rw [lengthOfMonth_eq]
  exact monthLen_gregorian _ _ hm1 hm12

/-- February 2024 has 29 days and February 2023 has 28 (instances of C10). -/
theorem lengthOfMonth_gregorian_witness :
    lengthOfMonth ⟨0, 0, 0, 1, 2, 24⟩ = 29 ∧ lengthOfMonth ⟨0, 0, 0, 1, 2, 23⟩ = 28 :=
  ⟨by rw [lengthOfMonth_gregorian _ (by decide) (by decide) (by decide)]; decide,
   by rw [lengthOfMonth_gregorian _ (by decide) (by decide) (by decide)]; decide⟩

/-! ## The normaliser on valid values -/

/-- C1: the round trip adjust(adjust(t, m), -m) = t does not hold in the code.
At 2020-06-15 10:00:00 with m = -1 (no year wrap anywhere near) the first call
gives 10:15 and the second 10:16, on a 16-bit and on a 32-bit `int` alike. -/
theorem adjust_round_trip_broken :
    adjust avr ⟨0, 0, 10, 15, 6, 20⟩ (-1) = ⟨0, 15, 10, 15, 6, 20⟩ ∧
      adjust avr (adjust avr ⟨0, 0, 10, 15, 6, 20⟩ (-1)) 1 = ⟨0, 16, 10, 15, 6, 20⟩ ∧
      adjust arm (adjust arm ⟨0, 0, 10, 15, 6, 20⟩ (-1)) 1 = ⟨0, 16, 10, 15, 6, 20⟩ ∧
      adjust avr (adjust avr ⟨0, 0, 10, 15, 6, 20⟩ (-1)) 1 ≠ ⟨0, 0, 10, 15, 6, 20⟩ := by
  decide

/-- C2: forward addition is not calendar-correct in the code. One minute after
2000-01-15 23:59 the code yields 2000-01-15 00:00 (the day is not advanced), so
the minute count of the result is 1439 less than that of the input instead of
1 more; one minute after 2000-01-31 23:59 it yields 2000-02-02 00:00. -/
theorem adjust_forward_midnight_broken :
    adjust avr ⟨0, 59, 23, 15, 1, 0⟩ 1 = ⟨0, 0, 0, 15, 1, 0⟩ ∧
      minuteCount avr (adjust avr ⟨0, 59, 23, 15, 1, 0⟩ 1) =
        minuteCount avr ⟨0, 59, 23, 15, 1, 0⟩ - 1439 ∧
      minuteCount avr (adjust avr ⟨0, 59, 23, 15, 1, 0⟩ 1) ≠
        minuteCount avr ⟨0, 59, 23, 15, 1, 0⟩ + 1 ∧
      adjust avr ⟨0, 59, 23, 31, 1, 0⟩ 1 = ⟨0, 0, 0, 2, 2, 0⟩ ∧
      adjust arm ⟨0, 59, 23, 15, 1, 0⟩ 1 = ⟨0, 0, 0, 15, 1, 0⟩ := by
  decide

/-- C3: negative offsets are not reduced floor-style in the code. At 10:00 with
m = -1 the result is 10:15, where the floor modulo of the minute of day is 599
(09:59) and that of the minute is 59. -/
theorem adjust_negative_offset_broken :
    adjust avr ⟨0, 0, 10, 15, 6, 20⟩ (-1) = ⟨0, 15, 10, 15, 6, 20⟩ ∧
      adjust arm ⟨0, 0, 10, 15, 6, 20⟩ (-1) = ⟨0, 15, 10, 15, 6, 20⟩ ∧
      (((10 : Int) * 60 + 0 + (-1)) % 1440 = 599 ∧ ((0 : Int) + (-1)) % 60 = 59) ∧
      (((adjust avr ⟨0, 0, 10, 15, 6, 20⟩ (-1)).hour : Int) * 60
          + (adjust avr ⟨0, 0, 10, 15, 6, 20⟩ (-1)).minute ≠ ((10 : Int) * 60 + 0 + (-1)) % 1440) ∧
      ((adjust avr ⟨0, 0, 10, 15, 6, 20⟩ (-1)).minute : Int) ≠ ((0 : Int) + (-1)) % 60 := by
  decide

/-- C4: for every valid Time Value `t`, `adjust t 0` leaves all six fields
unchanged; hence `gmt` with timezone 0 and `dst` with advance 0 are no-ops. -/
theorem adjust_zero_identity (P : Platform) (hP : 16 ≤ P.intBits) (c : Config) (t : Time)
    (ht : Valid t) :
    adjust P t 0 = t ∧ (c.timezone = 0 → gmt P c t = t) ∧ (c.dstadv = 0 → dst P c t = t) := by
  have key : adjust P t 0 = t := by
    obtain ⟨s, mi, h, d, mo, y⟩ := t
    obtain ⟨hs, hmi, hh, hd1, hd, hmo1, hmo, hy⟩ := ht
    simp only [lengthOfMonth_mk] at hs hmi hh hd1 hd hmo1 hmo hy
    rw [adjust_small P hP s mi h d mo y 0 hmi hh hd1 hd hmo1 hmo hy (by omega) (by omega)]
    have hq := tdiv_cases (mi + 0) 60 (by omega)
    have hq0 : Int.tdiv (mi + 0) 60 = 0 := by rw [hq.1 (by omega)]; omega
    rw [hq0]
    have hr := tdiv_cases (0 + h) 24 (by omega)
    have hr0 : Int.tdiv (0 + h) 24 = 0 := by rw [hr.1 (by omega)]; omega
    rw [hr0, if_neg (by omega)]
    unfold foldMod
    rw [if_pos (by omega), if_pos (by omega)]
    simp only [Time.mk.injEq, true_and, and_true]
    omega
  refine ⟨key, ?_, ?_⟩
  · intro hz
    unfold gmt
    rw [hz]
    exact key
  · intro hz
    unfold dst
    rw [hz]
    split_ifs
    · exact key
    · rfl

/-- Instance of C4 at 2020-06-15 12:30:00 on the 16-bit target. -/
theorem adjust_zero_identity_witness :
    Valid ⟨0, 30, 12, 15, 6, 20⟩ ∧
      adjust avr ⟨0, 30, 12, 15, 6, 20⟩ 0 = ⟨0, 30, 12, 15, 6, 20⟩ :=
  ⟨by decide,
    (adjust_zero_identity avr (by decide) (new ⟨0, 0, 0, 0, 0, 0, 0, 0⟩) ⟨0, 30, 12, 15, 6, 20⟩
      (by decide)).1⟩

/-- C5: for every accepted configuration (timezone within twelve hours, any
advance byte, any accepted DST rule) and every valid Time Value `t`, the values
produced by `gmt` and by `dst` are valid Time Values: second 0-59, minute 0-59,
hour 0-23, month 1-12, year 0-99 and 1 ≤ day ≤ lengthOfMonth of the resulting
month and year. -/
theorem political_time_valid (P : Platform) (hP : 16 ≤ P.intBits) (c : Config)
    (hc : Accepted c) (t : Time) (ht : Valid t) :
    Valid (gmt P c t) ∧ Valid (dst P c t) := by
  obtain ⟨hz1, hz2, -, -, -, -, -, -, -, -, hadv⟩ := hc
  constructor
  · unfold gmt
    exact adjust_valid P hP t ht _ (by omega) (by omega)
  · unfold dst
    split_ifs
    · exact adjust_valid P hP t ht _ (by omega) (by omega)
    · exact ht

/-- Instance of C5: the default configuration at 2020-12-31 23:30:00. -/
theorem political_time_valid_witness :
    Accepted (new ⟨0, 0, 0, 0, 0, 0, 0, 0⟩) ∧ Valid ⟨0, 30, 23, 31, 12, 20⟩ ∧
      Valid (gmt avr (new ⟨0, 0, 0, 0, 0, 0, 0, 0⟩) ⟨0, 30, 23, 31, 12, 20⟩) ∧
      Valid (dst avr (new ⟨0, 0, 0, 0, 0, 0, 0, 0⟩) ⟨0, 30, 23, 31, 12, 20⟩) :=
  ⟨by decide, by decide,
    political_time_valid avr (by decide) (new ⟨0, 0, 0, 0, 0, 0, 0, 0⟩) (by decide)
      ⟨0, 30, 23, 31, 12, 20⟩ (by decide)⟩

/-! ## The DST evaluator -/

/-- C6: the start boundary is not the configured Sunday when a Sunday falls on
day 7, 14, 21 or 28. In March 2010 the Sundays are the 7th and the 14th; with
the default rule (second Sunday) `inDst` is already true on the 7th at 03:00
and is true on the 14th at 01:00 as at 03:00, although 02:00 on the second
Sunday has not been reached. -/
theorem inDst_start_boundary_broken :
    dayOfWeek ⟨0, 0, 3, 7, 3, 10⟩ = 1 ∧ sundaysSoFar ⟨0, 0, 3, 7, 3, 10⟩ = 1 ∧
      inDst avr (new ⟨0, 0, 0, 0, 0, 0, 0, 0⟩) ⟨0, 0, 3, 7, 3, 10⟩ = true ∧
      atOrAfterNthSunday2am 2 ⟨0, 0, 3, 7, 3, 10⟩ = false ∧
      dayOfWeek ⟨0, 0, 1, 14, 3, 10⟩ = 1 ∧ sundaysSoFar ⟨0, 0, 1, 14, 3, 10⟩ = 2 ∧
      inDst avr (new ⟨0, 0, 0, 0, 0, 0, 0, 0⟩) ⟨0, 0, 1, 14, 3, 10⟩ = true ∧
      atOrAfterNthSunday2am 2 ⟨0, 0, 1, 14, 3, 10⟩ = false ∧
      inDst avr (new ⟨0, 0, 0, 0, 0, 0, 0, 0⟩) ⟨0, 0, 3, 14, 3, 10⟩ = true ∧
      inDst arm (new ⟨0, 0, 0, 0, 0, 0, 0, 0⟩) ⟨0, 0, 1, 14, 3, 10⟩ = true := by
  decide

/-- C7: the end boundary is not the configured Sunday when a Sunday falls on
day 7, 14, 21 or 28. The first Sunday of November 2010 is the 7th; with the
default rule (first Sunday) `inDst` is false on that day at 01:00, before 02:00
on the first Sunday. -/
theorem inDst_end_boundary_broken :
    dayOfWeek ⟨0, 0, 1, 7, 11, 10⟩ = 1 ∧ sundaysSoFar ⟨0, 0, 1, 7, 11, 10⟩ = 1 ∧
      inDst avr (new ⟨0, 0, 0, 0, 0, 0, 0, 0⟩) ⟨0, 0, 1, 7, 11, 10⟩ = false ∧
      atOrAfterNthSunday2am 1 ⟨0, 0, 1, 7, 11, 10⟩ = false ∧
      inDst arm (new ⟨0, 0, 0, 0, 0, 0, 0, 0⟩) ⟨0, 0, 1, 7, 11, 10⟩ = false := by
  decide

/-- C8: for every accepted DST rule and every Time Value `t`, a month strictly
between the start and the end month is in DST and a month before the start
month or after the end month is not, whatever the day and hour; with the
default rule every January date is out of DST and every July date is in DST. -/
theorem inDst_by_month (P : Platform) (c : Config) (_hc : Accepted c) (t : Time) :
    (c.dstm1 < t.month ∧ t.month < c.dstm2 → inDst P c t = true) ∧
      (t.month < c.dstm1 ∨ c.dstm2 < t.month → inDst P c t = false) ∧
      (∀ u : Config, c = new u →
        (t.month = 1 → inDst P c t = false) ∧ (t.month = 7 → inDst P c t = true)) := by
  have hin : c.dstm1 < t.month ∧ t.month < c.dstm2 → inDst P c t = true := by
    intro h
    unfold inDst
    rw [if_neg (by omega), if_pos (by omega)]
  have hout : t.month < c.dstm1 ∨ c.dstm2 < t.month → inDst P c t = false := by
    intro h
    unfold inDst
    rw [if_pos (by omega)]
  refine ⟨hin, hout, ?_⟩
  intro u hu
  have h1 : c.dstm1 = 3 := by rw [hu]; rfl
  have h2 : c.dstm2 = 11 := by rw [hu]; rfl
  exact ⟨fun hm => hout (by omega), fun hm => hin (by omega)⟩

/-- Instance of C8: with the default rule, 2020-07-04 12:00 is in DST and
2020-01-04 12:00 is not. -/
theorem inDst_by_month_witness :
    Accepted (new ⟨0, 0, 0, 0, 0, 0, 0, 0⟩) ∧
      inDst avr (new ⟨0, 0, 0, 0, 0, 0, 0, 0⟩) ⟨0, 0, 12, 4, 7, 20⟩ = true ∧
      inDst avr (new ⟨0, 0, 0, 0, 0, 0, 0, 0⟩) ⟨0, 0, 12, 4, 1, 20⟩ = false :=
  ⟨by decide,
    (inDst_by_month avr (new ⟨0, 0, 0, 0, 0, 0, 0, 0⟩) (by decide) ⟨0, 0, 12, 4, 7, 20⟩).1
      (by decide),
    (inDst_by_month avr (new ⟨0, 0, 0, 0, 0, 0, 0, 0⟩) (by decide) ⟨0, 0, 12, 4, 1, 20⟩).2.1
      (by decide)⟩

/-- C20: a DST rule whose start month is later than its end month never reports
DST: for every such accepted rule and every Time Value `t`, `inDst` is false and
`dst` leaves `t` unchanged. -/
theorem inDst_reversed_rule (P : Platform) (c : Config) (_hc : Accepted c)
    (hrev : c.dstm2 < c.dstm1) (t : Time) :
    inDst P c t = false ∧ dst P c t = t := by
  have h : inDst P c t = false := by
    unfold inDst
    rw [if_pos (by omega)]
  refine ⟨h, ?_⟩
  unfold dst
  rw [h]
  rfl

/-- Instance of C20: the rule (10, 1, 3, 3, 60) on 2020-12-25 12:00. -/
theorem inDst_reversed_rule_witness :
    Accepted ⟨27, -82, -300, 10, 1, 3, 3, 60⟩ ∧
      inDst avr ⟨27, -82, -300, 10, 1, 3, 3, 60⟩ ⟨0, 0, 12, 25, 12, 20⟩ = false ∧
      dst avr ⟨27, -82, -300, 10, 1, 3, 3, 60⟩ ⟨0, 0, 12, 25, 12, 20⟩ =
        ⟨0, 0, 12, 25, 12, 20⟩ :=
  ⟨by decide,
    inDst_reversed_rule avr ⟨27, -82, -300, 10, 1, 3, 3, 60⟩ (by decide) (by decide)
      ⟨0, 0, 12, 25, 12, 20⟩⟩

/-! ## Configuration setters -/

/-- C12: whenever `position`, `timeZone` or `dstRules` returns false the
configuration is exactly what it was before the call, and a successful call
changes only the fields the setter owns (which then hold the arguments). -/
theorem setters_atomic (c : Config) (lat lon : ℚ) (tz : Int)
    (sMonth sSunday eMonth eSunday advance : Nat) :
    ((position c lat lon).1 = false → (position c lat lon).2 = c) ∧
      ((timeZone c tz).1 = false → (timeZone c tz).2 = c) ∧
      ((dstRules c sMonth sSunday eMonth eSunday advance).1 = false →
        (dstRules c sMonth sSunday eMonth eSunday advance).2 = c) ∧
      ((position c lat lon).1 = true →
        (position c lat lon).2 = { c with latitude := lat, longitude := lon }) ∧
      ((timeZone c tz).1 = true → (timeZone c tz).2 = { c with timezone := tz }) ∧
      ((dstRules c sMonth sSunday eMonth eSunday advance).1 = true →
        (dstRules c sMonth sSunday eMonth eSunday advance).2 =
          { c with dstm1 := sMonth, dstw1 := sSunday, dstm2 := eMonth, dstw2 := eSunday,
                   dstadv := advance }) := by
  refine ⟨?_, ?_, ?_, ?_, ?_, ?_⟩
  · unfold position
    split_ifs <;> simp
  · unfold timeZone
    split_ifs <;> simp
  · unfold dstRules
    split_ifs <;> simp
  · unfold position
    split_ifs <;> simp
  · unfold timeZone
    split_ifs <;> simp
  · unfold dstRules
    split_ifs <;> simp

/-- Instance of C12: a timezone of 721 minutes is rejected and the default
configuration stays as it was. -/
theorem setters_atomic_witness :
    (timeZone (new ⟨0, 0, 0, 0, 0, 0, 0, 0⟩) 721).1 = false ∧
      (timeZone (new ⟨0, 0, 0, 0, 0, 0, 0, 0⟩) 721).2 = new ⟨0, 0, 0, 0, 0, 0, 0, 0⟩ :=
  ⟨by decide,
    (setters_atomic (new ⟨0, 0, 0, 0, 0, 0, 0, 0⟩) 0 0 721 0 0 0 0 0).2.1 (by decide)⟩

/-- C13: `dstRules` returns true exactly when both months are in 1-12 and both
Sunday ordinals are in 1-4 (the advance is unconstrained), and then the stored
rule is exactly the five arguments. -/
theorem dstRules_accepts_iff (c : Config) (sMonth sSunday eMonth eSunday advance : Nat) :
    ((dstRules c sMonth sSunday eMonth eSunday advance).1 = true ↔
        (1 ≤ sMonth ∧ sMonth ≤ 12 ∧ 1 ≤ eMonth ∧ eMonth ≤ 12 ∧ 1 ≤ sSunday ∧ sSunday ≤ 4 ∧
          1 ≤ eSunday ∧ eSunday ≤ 4)) ∧
      ((dstRules c sMonth sSunday eMonth eSunday advance).1 = true →
        (dstRules c sMonth sSunday eMonth eSunday advance).2.dstm1 = sMonth ∧
        (dstRules c sMonth sSunday eMonth eSunday advance).2.dstw1 = sSunday ∧
        (dstRules c sMonth sSunday eMonth eSunday advance).2.dstm2 = eMonth ∧
        (dstRules c sMonth sSunday eMonth eSunday advance).2.dstw2 = eSunday ∧
        (dstRules c sMonth sSunday eMonth eSunday advance).2.dstadv = advance) := by
  unfold dstRules
  split_ifs with h1 h2
  · simp only [Bool.false_eq_true, false_iff, false_implies, and_true]
    omega
  · simp only [Bool.false_eq_true, false_iff, false_implies, and_true]
    omega
  · simp only [true_iff, true_implies, and_self, and_true]
    omega

/-- Instance of C13: the rule (3, 2, 11, 1, 60) is accepted and stored. -/
theorem dstRules_accepts_iff_witness :
    (dstRules ⟨0, 0, 0, 0, 0, 0, 0, 0⟩ 3 2 11 1 60).1 = true ∧
      (dstRules ⟨0, 0, 0, 0, 0, 0, 0, 0⟩ 3 2 11 1 60).2.dstm1 = 3 ∧
      (dstRules ⟨0, 0, 0, 0, 0, 0, 0, 0⟩ 3 2 11 1 60).2.dstw1 = 2 ∧
      (dstRules ⟨0, 0, 0, 0, 0, 0, 0, 0⟩ 3 2 11 1 60).2.dstm2 = 11 ∧
      (dstRules ⟨0, 0, 0, 0, 0, 0, 0, 0⟩ 3 2 11 1 60).2.dstw2 = 1 ∧
      (dstRules ⟨0, 0, 0, 0, 0, 0, 0, 0⟩ 3 2 11 1 60).2.dstadv = 60 :=
  ⟨by decide, (dstRules_accepts_iff ⟨0, 0, 0, 0, 0, 0, 0, 0⟩ 3 2 11 1 60).2 (by decide)⟩

/-! ## Season -/

theorem _season_le (t : Time) : _season t ≤ 3 := by
  unfold _season
  split_ifs <;> omega

theorem season_shift (r : Nat) (hr : r ≤ 3) : u8 (Int.tmod ((r : Int) + 2) 4) = (r + 2) % 4 := by
  rw [tmod_of_nonneg _ _ (by omega) (by omega)]
  unfold u8
  omega

/-- The four outcomes of `_season` with the dates that give them. -/
theorem _season_cases (t : Time) :
    (_season t = 0 ∧ (t.month < 3 ∨ (t.month = 3 ∧ t.day < 22) ∨ (12 ≤ t.month ∧ 21 ≤ t.day))) ∨
      (_season t = 1 ∧ ((t.month = 3 ∧ 22 ≤ t.day) ∨ (3 < t.month ∧ t.month < 6) ∨
        (t.month = 6 ∧ t.day < 21))) ∨
      (_season t = 2 ∧ ((t.month = 6 ∧ 21 ≤ t.day) ∨ (6 < t.month ∧ t.month < 9) ∨
        (t.month = 9 ∧ t.day < 22))) ∨
      (_season t = 3 ∧ ((t.month = 9 ∧ 22 ≤ t.day) ∨ (9 < t.month ∧ t.month < 12) ∨
        (12 ≤ t.month ∧ t.day < 21))) := by
  unfold _season
  split_ifs <;> omega

/-- C11: for every Time Value `t` and every latitude L > 0, the season under
latitude -L is the season under latitude L plus 2 modulo 4, and both lie in
0..3. -/
theorem season_hemisphere (c : Config) (t : Time) (L : ℚ) (hL : 0 < L) :
    season { c with latitude := -L } t = (season { c with latitude := L } t + 2) % 4 ∧
      season { c with latitude := L } t < 4 ∧ season { c with latitude := -L } t < 4 := by
  have hs := _season_le t
  have hneg : (-L : ℚ) < 0 := by linarith
  have hpos : ¬ ((L : ℚ) < 0) := by linarith
  have e1 : season { c with latitude := L } t = _season t := by
    unfold season
    simp only [hpos, if_false]
  have e2 : season { c with latitude := -L } t = (_season t + 2) % 4 := by
    unfold season
    simp only [hneg, if_true]
    exact season_shift _ hs
  rw [e1, e2]
  omega

/-- Instance of C11 at latitude 27 on 2020-07-04: summer (2) north, winter (0) south. -/
theorem season_hemisphere_witness :
    season { new ⟨0, 0, 0, 0, 0, 0, 0, 0⟩ with latitude := -27 } ⟨0, 0, 12, 4, 7, 20⟩ =
        (season { new ⟨0, 0, 0, 0, 0, 0, 0, 0⟩ with latitude := 27 } ⟨0, 0, 12, 4, 7, 20⟩ + 2) % 4 ∧
      season { new ⟨0, 0, 0, 0, 0, 0, 0, 0⟩ with latitude := 27 } ⟨0, 0, 12, 4, 7, 20⟩ < 4 ∧
      season { new ⟨0, 0, 0, 0, 0, 0, 0, 0⟩ with latitude := -27 } ⟨0, 0, 12, 4, 7, 20⟩ < 4 :=
  season_hemisphere (new ⟨0, 0, 0, 0, 0, 0, 0, 0⟩) ⟨0, 0, 12, 4, 7, 20⟩ 27 (by norm_num)

/-- C19: at non-negative latitude `season` is 0 before Mar 22 and from Dec 21,
1 from Mar 22 to Jun 20, 2 from Jun 21 to Sep 21 and 3 from Sep 22 to Dec 20;
between two dates of one calendar year, the later one no later than Dec 20, the
index does not decrease. -/
theorem season_thresholds (c : Config) (hlat : 0 ≤ c.latitude) (t u : Time)
    (ht1 : 1 ≤ t.month) (ht12 : t.month ≤ 12) (hu1 : 1 ≤ u.month) (hu12 : u.month ≤ 12) :
    season c t =
        (if t.month < 3 ∨ (t.month = 3 ∧ t.day < 22) ∨ (t.month = 12 ∧ 21 ≤ t.day) then 0
         else if t.month < 6 ∨ (t.month = 6 ∧ t.day < 21) then 1
         else if t.month < 9 ∨ (t.month = 9 ∧ t.day < 22) then 2
         else 3) ∧
      ((t.month < u.month ∨ (t.month = u.month ∧ t.day ≤ u.day)) →
        (u.month < 12 ∨ (u.month = 12 ∧ u.day ≤ 20)) → season c t ≤ season c u) := by
  have hpos : ¬ (c.latitude < 0) := by linarith
  have e : ∀ w : Time, season c w = _season w := by
    intro w
    unfold season
    simp only [hpos, if_false]
  rw [e t, e u]
  have st := _season_cases t
  have su := _season_cases u
  constructor
  · split_ifs <;> omega
  · intro h1 h2
    omega

/-- Instance of C19: 2020-03-22 is spring, and the index does not decrease from
2020-03-22 to 2020-09-22. -/
theorem season_thresholds_witness :
    season (new ⟨0, 0, 0, 0, 0, 0, 0, 0⟩) ⟨0, 0, 0, 22, 3, 20⟩ = 1 ∧
      season (new ⟨0, 0, 0, 0, 0, 0, 0, 0⟩) ⟨0, 0, 0, 22, 3, 20⟩ ≤
        season (new ⟨0, 0, 0, 0, 0, 0, 0, 0⟩) ⟨0, 0, 0, 22, 9, 20⟩ :=
  have h := season_thresholds (new ⟨0, 0, 0, 0, 0, 0, 0, 0⟩) (by norm_num [new, dstRules])
    ⟨0, 0, 0, 22, 3, 20⟩ ⟨0, 0, 0, 22, 9, 20⟩ (by decide) (by decide) (by decide) (by decide)
  ⟨h.1.trans (by decide), h.2 (by decide) (by decide)⟩

/-! ## Day numbers along the calendar -/

theorem nextDay_validDate (t : Time) (ht : ValidDate t)
    (hlast : ¬ (t.year = 99 ∧ t.month = 12 ∧ t.day = 31)) : ValidDate (nextDay t) := by
  obtain ⟨s, mi, h, d, mo, y⟩ := t
  obtain ⟨hy, hm1, hm12, hd1, hd⟩ := ht
  simp only [lengthOfMonth_mk] at hy hm1 hm12 hd1 hd hlast
  have hb := monthLen_bounds mo y
  have hg := monthLen_gregorian mo y hm1 hm12
  unfold nextDay ValidDate
  simp only [lengthOfMonth_mk]
  by_cases hlt : d < monthLen mo y
  · rw [if_pos hlt]
    simp only [lengthOfMonth_mk]
    omega
  · rw [if_neg hlt]
    by_cases hm : mo < 12
    · rw [if_pos hm]
      simp only [lengthOfMonth_mk]
      have := monthLen_bounds (mo + 1) y
      omega
    · rw [if_neg hm]
      have hmo : mo = 12 := by omega
      subst hmo
      simp only [lengthOfMonth_mk]
      have := monthLen_bounds 1 (y + 1)
      norm_num at hg
      omega

theorem nextDay_year (t : Time) (ht : ValidDate t) :
    t.year ≤ (nextDay t).year ∧
      ((t.year = 99 ∧ t.month = 12 ∧ t.day = 31) → (nextDay t).year = 100) := by
  obtain ⟨s, mi, h, d, mo, y⟩ := t
  obtain ⟨hy, hm1, hm12, hd1, hd⟩ := ht
  simp only [lengthOfMonth_mk] at hy hm1 hm12 hd1 hd
  have hg := monthLen_gregorian mo y hm1 hm12
  unfold nextDay
  simp only [lengthOfMonth_mk]
  split_ifs with h1 h2
  · simp only [le_refl, true_and]
    rintro ⟨-, rfl, rfl⟩
    norm_num at hg
    omega
  · simp only [le_refl, true_and]
    rintro ⟨-, rfl, -⟩
    omega
  · simp only
    constructor
    · omega
    · rintro ⟨rfl, -, -⟩
      rfl

theorem nextDay_year_le (t : Time) : t.year ≤ (nextDay t).year := by
  unfold nextDay
  split_ifs
  · exact le_refl _
  · exact le_refl _
  · exact Nat.le_succ _

theorem dayNumberOf_nextDay (P : Platform) (t : Time) (ht : ValidDate t)
    (hlast : ¬ (t.year = 99 ∧ t.month = 12 ∧ t.day = 31)) :
    dayNumberOf P (nextDay t) = dayNumberOf P t + 1 := by
  obtain ⟨s, mi, h, d, mo, y⟩ := t
  obtain ⟨hy, hm1, hm12, hd1, hd⟩ := ht
  exact dayNumber_nextDay P s mi h d mo y hy hm1 hm12 hd hlast

theorem dayNumberOf_iterate (P : Platform) (t : Time) (ht : ValidDate t) (k : Nat) :
    (nextDay^[k] t).year < 100 →
      ValidDate (nextDay^[k] t) ∧ dayNumberOf P (nextDay^[k] t) = dayNumberOf P t + k := by
  induction k with
  | zero =>
    intro _
    exact ⟨ht, by simp⟩
  | succ k ih =>
    intro hk
    rw [Function.iterate_succ_apply'] at hk ⊢
    by_cases hyk : (nextDay^[k] t).year < 100
    · obtain ⟨hv, hn⟩ := ih hyk
      have hyr := nextDay_year _ hv
      have hlast : ¬ ((nextDay^[k] t).year = 99 ∧ (nextDay^[k] t).month = 12 ∧
          (nextDay^[k] t).day = 31) := by
        intro hl
        have := hyr.2 hl
        omega
      refine ⟨nextDay_validDate _ hv hlast, ?_⟩
      rw [dayNumberOf_nextDay P _ hv hlast, hn]
      push_cast
      ring
    · have := nextDay_year_le (nextDay^[k] t)
      omega

/-- C18: for every valid date from Jan 1, 2000 to Dec 30, 2099 `dayNumber` of
the following calendar day is `dayNumber` of the date plus 1; hence `k` calendar
days later (while the year stays within 2000-2099) it is larger by exactly `k`. -/
theorem dayNumber_continuous (P : Platform) (t : Time) (ht : ValidDate t) :
    (¬ (t.year = 99 ∧ t.month = 12 ∧ t.day = 31) →
        dayNumber P (2000 + (nextDay t).year) (nextDay t).month (nextDay t).day =
          dayNumber P (2000 + t.year) t.month t.day + 1) ∧
      (∀ k : Nat, (nextDay^[k] t).year < 100 →
        dayNumber P (2000 + (nextDay^[k] t).year) (nextDay^[k] t).month (nextDay^[k] t).day =
          dayNumber P (2000 + t.year) t.month t.day + k) :=
  ⟨fun hlast => dayNumberOf_nextDay P t ht hlast,
    fun k hk => (dayNumberOf_iterate P t ht k hk).2⟩

/-- Instance of C18: Feb 28, 2000 to Feb 29, 2000, and Dec 31, 2000 to Jan 1, 2001. -/
theorem dayNumber_continuous_witness :
    ValidDate ⟨0, 0, 0, 28, 2, 0⟩ ∧
      dayNumber avr (2000 + (nextDay ⟨0, 0, 0, 28, 2, 0⟩).year) (nextDay ⟨0, 0, 0, 28, 2, 0⟩).month
          (nextDay ⟨0, 0, 0, 28, 2, 0⟩).day = dayNumber avr (2000 + 0) 2 28 + 1 ∧
      nextDay ⟨0, 0, 0, 28, 2, 0⟩ = ⟨0, 0, 0, 29, 2, 0⟩ ∧
      nextDay ⟨0, 0, 0, 31, 12, 0⟩ = ⟨0, 0, 0, 1, 1, 1⟩ :=
  ⟨by decide,
    (dayNumber_continuous avr ⟨0, 0, 0, 28, 2, 0⟩ (by decide)).1 (by decide),
    by decide, by decide⟩

/-! ## Sidereal time -/

theorem adjust_zero_fields (P : Platform) (hP : 16 ≤ P.intBits) (s mi h d mo y : Nat)
    (hmi : mi < 60) (hh : h < 24) (hd1 : 1 ≤ d) (hd : d ≤ monthLen mo y) (hmo1 : 1 ≤ mo)
    (hmo : mo ≤ 12) (hy : y < 100) :
    adjust P ⟨s, mi, h, d, mo, y⟩ 0 = ⟨s, mi, h, d, mo, y⟩ := by
  rw [adjust_small P hP s mi h d mo y 0 hmi hh hd1 hd hmo1 hmo hy (by omega) (by omega)]
  have hq := tdiv_cases (mi + 0) 60 (by omega)
  have hq0 : Int.tdiv (mi + 0) 60 = 0 := by rw [hq.1 (by omega)]; omega
  rw [hq0]
  have hr := tdiv_cases (0 + h) 24 (by omega)
  have hr0 : Int.tdiv (0 + h) 24 = 0 := by rw [hr.1 (by omega)]; omega
  rw [hr0, if_neg (by omega)]
  unfold foldMod
  rw [if_pos (by omega), if_pos (by omega)]
  simp only [Time.mk.injEq, true_and, and_true]
  omega

/-- The normaliser applied at 00:00 with an offset of less than one day: the
offset is split into hour and minute, the date is kept. -/
theorem adjust_from_midnight (P : Platform) (hP : 16 ≤ P.intBits) (s d mo y : Nat) (off : Nat)
    (hoff : off < 1440) (hd1 : 1 ≤ d) (hd : d ≤ monthLen mo y) (hmo1 : 1 ≤ mo) (hmo : mo ≤ 12)
    (hy : y < 100) :
    adjust P ⟨s, 0, 0, d, mo, y⟩ off = ⟨s, off % 60, off / 60, d, mo, y⟩ := by
  unfold adjust
  simp only
  rw [adjustMinute_eq P hP _ _ _ _ _ _ _ (by omega) (by omega)]
  simp only
  have hq := (tdiv_cases (((0 : Nat) : Int) + (off : Int)) 60 (by omega)).1 (by omega)
  rw [hq]
  have hq2 : (((0 : Nat) : Int) + (off : Int)) / 60 = ((off / 60 : Nat) : Int) := by omega
  rw [hq2]
  rw [adjustHour_eq P hP _ _ _ _ _ _ _ (by omega) (by omega)]
  simp only
  have hr := (tdiv_cases (((off / 60 : Nat) : Int) + ((0 : Nat) : Int)) 24 (by omega)).1 (by omega)
  rw [hr]
  have hr2 : (((off / 60 : Nat) : Int) + ((0 : Nat) : Int)) / 24 = 0 := by omega
  rw [hr2, adjustDay_same _ _ _ _ _ _ _ (by omega) (by omega),
    adjustYear_eq _ _ _ _ _ _ (by omega), if_neg (by omega), if_neg (by omega)]
  unfold foldMod
  rw [if_pos (by omega), if_pos (by omega)]
  simp only [Time.mk.injEq, true_and]
  omega

theorem u64_small (n : Int) (h0 : 0 ≤ n) (h : n < 18446744073709551616) :
    u64 n = n.toNat := by
  unfold u64
  rw [Int.emod_eq_of_lt h0 h]

theorem u64_natCast (n : Nat) (h : n < 18446744073709551616) : u64 (n : Int) = n := by
  unfold u64
  omega

/-- Days from Jan 1, 2000 to a valid date of 2000-2099: between 0 and 36524. -/
theorem dayNumber_since_epoch (P : Platform) (d mo y : Nat) (hy : y < 100) (hm1 : 1 ≤ mo)
    (hm12 : mo ≤ 12) (hd1 : 1 ≤ d) (hd : d ≤ monthLen mo y) :
    0 ≤ dayNumber P (2000 + y) mo d - dayNumber P 2000 1 1 ∧
      dayNumber P (2000 + y) mo d - dayNumber P 2000 1 1 ≤ 36524 := by
  have hb := monthLen_bounds mo y
  rw [dayNumber_eq P y mo d hy hm1 hm12 (by omega), dayNumber_epoch P]
  generalize (if P.intBits ≤ 16 then (720896 : Int) else 0) = w
  by_cases h3 : mo < 3
  · simp only [h3, if_true]
    omega
  · simp only [h3, if_false]
    have hg := monthLen_gregorian mo y hm1 hm12
    split_ifs at hg <;> interval_cases mo <;> omega

theorem sidereal_gmt (P : Platform) (hP : 16 ≤ P.intBits) (c : Config) (hz : c.timezone = 0)
    (s mi h d mo y : Nat) (hs : s < 60) (hmi : mi < 60) (hh : h < 24) (hd1 : 1 ≤ d)
    (hd : d ≤ monthLen mo y) (hmo1 : 1 ≤ mo) (hmo : mo ≤ 12) (hy : y < 100) :
    ∃ D : Nat, (D : Int) = dayNumber P (2000 + y) mo d - dayNumber P 2000 1 1 ∧
      (86400 * D + 3600 * h + 60 * mi + s) * 1002737909 < 18446744073709551616 ∧
      sidereal P c ⟨s, mi, h, d, mo, y⟩ false =
        ⟨((86400 * D + 3600 * h + 60 * mi + s) * 1002737909 / 1000000000 + 23992) % 86400 % 60,
         ((86400 * D + 3600 * h + 60 * mi + s) * 1002737909 / 1000000000 + 23992) % 86400 / 60 % 60,
         ((86400 * D + 3600 * h + 60 * mi + s) * 1002737909 / 1000000000 + 23992) % 86400 / 3600,
         d, mo, y⟩ := by
  obtain ⟨h0, h1⟩ := dayNumber_since_epoch P d mo y hy hmo1 hmo hd1 hd
  obtain ⟨D, hD⟩ := Int.eq_ofNat_of_zero_le h0
  refine ⟨D, hD.symm, by omega, ?_⟩
  have hg : gmt P c ⟨s, mi, h, d, mo, y⟩ = ⟨s, mi, h, d, mo, y⟩ := by
    unfold gmt
    rw [hz]
    exact adjust_zero_fields P hP s mi h d mo y hmi hh hd1 hd hmo1 hmo hy
  unfold sidereal
  simp only [hg, hD, Bool.false_eq_true, if_false]
  have hDle : D ≤ 36524 := by omega
  obtain ⟨E, hE⟩ : ∃ E : Nat, E = 86400 * D + 3600 * h + 60 * mi + s := ⟨_, rfl⟩
  rw [← hE]
  have hEle : E ≤ 3155759999 := by omega
  rw [u64_natCast D (by omega)]
  have c1 : (D : Int) * 86400 + h * 3600 + mi * 60 + s = ((E : Nat) : Int) := by
    rw [hE]; push_cast; ring
  rw [c1, u64_natCast E (by omega)]
  have c2 : (E : Int) * 1002737909 = ((E * 1002737909 : Nat) : Int) := by push_cast; ring
  rw [c2, u64_natCast _ (by omega)]
  obtain ⟨T, hT⟩ : ∃ T : Nat, T = E * 1002737909 / 1000000000 + 23992 := ⟨_, rfl⟩
  have c3 : ((E * 1002737909 / 1000000000 : Nat) : Int) + 23992 = ((T : Nat) : Int) := by
    rw [hT]; push_cast; ring
  rw [c3, u64_natCast T (by omega), ← hT]
  obtain ⟨S, hS⟩ : ∃ S : Nat, S = T % 86400 := ⟨_, rfl⟩
  rw [← hS]
  have hSlt : S < 86400 := by omega
  have c4 : ((S : Nat) : Int) / 60 = ((S / 60 : Nat) : Int) := by omega
  rw [c4]
  have c5 : ((S / 60 : Nat) : Int) * 60 = ((S / 60 * 60 : Nat) : Int) := by push_cast; ring
  rw [c5, u64_natCast _ (by omega)]
  have c6 : u8 ((S : Int) - ((S / 60 * 60 : Nat) : Int)) = S % 60 := by
    unfold u8; omega
  rw [c6, adjust_from_midnight P hP _ d mo y (S / 60) (by omega) hd1 hd hmo1 hmo hy]
  simp only [Time.mk.injEq, true_and, and_true]
  omega

/-- C17: with timezone 0 and `local = false`, for every valid Time Value `t`,
`sidereal` keeps day, month and year and yields hour < 24, minute < 60,
second < 60 with hour*3600 + minute*60 + second =
(floor(E * 1002737909 / 1000000000) + 23992) mod 86400, where E is the number of
calendar seconds since Jan 1, 2000 00:00:00; the product E * 1002737909 stays
below 2^64. -/
theorem sidereal_gmt_formula (P : Platform) (hP : P.intBits = 16 ∨ 32 ≤ P.intBits)
    (c : Config) (hz : c.timezone = 0) (t : Time) (ht : Valid t) :
    ((sidereal P c t false).day = t.day ∧ (sidereal P c t false).month = t.month ∧
        (sidereal P c t false).year = t.year) ∧
      ((sidereal P c t false).hour < 24 ∧ (sidereal P c t false).minute < 60 ∧
        (sidereal P c t false).second < 60) ∧
      (((sidereal P c t false).hour : Int) * 3600 + (sidereal P c t false).minute * 60
          + (sidereal P c t false).second =
        ((86400 * (dayNumber P (2000 + t.year) t.month t.day - dayNumber P 2000 1 1)
            + 3600 * t.hour + 60 * t.minute + t.second) * 1002737909 / 1000000000 + 23992)
          % 86400) ∧
      (0 ≤ 86400 * (dayNumber P (2000 + t.year) t.month t.day - dayNumber P 2000 1 1)
            + 3600 * t.hour + 60 * t.minute + t.second ∧
        (86400 * (dayNumber P (2000 + t.year) t.month t.day - dayNumber P 2000 1 1)
            + 3600 * t.hour + 60 * t.minute + t.second) * 1002737909
          < 18446744073709551616) := by
  obtain ⟨s, mi, h, d, mo, y⟩ := t
  obtain ⟨hs, hmi, hh, hd1, hd, hmo1, hmo, hy⟩ := ht
  simp only [lengthOfMonth_mk] at hs hmi hh hd1 hd hmo1 hmo hy
  have hP16 : 16 ≤ P.intBits := by omega
  obtain ⟨D, hD, hov, hsid⟩ :=
    sidereal_gmt P hP16 c hz s mi h d mo y hs hmi hh hd1 hd hmo1 hmo hy
  rw [hsid]
  simp only
  rw [← hD]
  obtain ⟨E, hE⟩ : ∃ E : Nat, E = 86400 * D + 3600 * h + 60 * mi + s := ⟨_, rfl⟩
  rw [← hE] at hov ⊢
  have c1 : (86400 * (D : Int) + 3600 * h + 60 * mi + s) = ((E : Nat) : Int) := by
    rw [hE]; push_cast; ring
  rw [c1]
  obtain ⟨S, hS⟩ : ∃ S : Nat, S = (E * 1002737909 / 1000000000 + 23992) % 86400 := ⟨_, rfl⟩
  have c2 : ((E : Int) * 1002737909 / 1000000000 + 23992) % 86400 = ((S : Nat) : Int) := by
    rw [hS]; push_cast; rfl
  rw [c2, ← hS]
  have hSlt : S < 86400 := by omega
  refine ⟨by simp, ?_, ?_, ?_⟩
  · omega
  · omega
  · omega

/-- Instance of C17 at the epoch: Jan 1, 2000 00:00:00 gives 06:39:52. -/
theorem sidereal_gmt_formula_witness :
    Valid ⟨0, 0, 0, 1, 1, 0⟩ ∧
      sidereal avr ⟨27, -82, 0, 3, 2, 11, 1, 60⟩ ⟨0, 0, 0, 1, 1, 0⟩ false = ⟨52, 39, 6, 1, 1, 0⟩ ∧
      ((sidereal avr ⟨27, -82, 0, 3, 2, 11, 1, 60⟩ ⟨0, 0, 0, 1, 1, 0⟩ false).hour : Int) * 3600
          + (sidereal avr ⟨27, -82, 0, 3, 2, 11, 1, 60⟩ ⟨0, 0, 0, 1, 1, 0⟩ false).minute * 60
          + (sidereal avr ⟨27, -82, 0, 3, 2, 11, 1, 60⟩ ⟨0, 0, 0, 1, 1, 0⟩ false).second =
        ((86400 * (dayNumber avr (2000 + 0) 1 1 - dayNumber avr 2000 1 1)
            + 3600 * (0 : Nat) + 60 * (0 : Nat) + (0 : Nat)) * 1002737909 / 1000000000 + 23992)
          % 86400 :=
  ⟨by decide, by decide,
    (sidereal_gmt_formula avr (Or.inl rfl) ⟨27, -82, 0, 3, 2, 11, 1, 60⟩ rfl ⟨0, 0, 0, 1, 1, 0⟩
      (by decide)).2.2.1⟩

/-! ## Sun events -/

/-- C15, as stated, fails: with an hour-angle argument of magnitude 2 `sunRise`
returns false on 2020-12-21 10:15:30 and the array still reads 10:15:30; hour,
minute and second have not been set to 0. -/
theorem sunRise_failure_keeps_time :
    (sunRise avr (new ⟨0, 0, 0, 0, 0, 0, 0, 0⟩) ⟨30, 15, 10, 21, 12, 20⟩ 2 0).1 = false ∧
      (sunRise avr (new ⟨0, 0, 0, 0, 0, 0, 0, 0⟩) ⟨30, 15, 10, 21, 12, 20⟩ 2 0).2 =
        ⟨30, 15, 10, 21, 12, 20⟩ ∧
      ¬ ((sunRise avr (new ⟨0, 0, 0, 0, 0, 0, 0, 0⟩) ⟨30, 15, 10, 21, 12, 20⟩ 2 0).2.hour = 0 ∧
        (sunRise avr (new ⟨0, 0, 0, 0, 0, 0, 0, 0⟩) ⟨30, 15, 10, 21, 12, 20⟩ 2 0).2.minute = 0 ∧
        (sunRise avr (new ⟨0, 0, 0, 0, 0, 0, 0, 0⟩) ⟨30, 15, 10, 21, 12, 20⟩ 2 0).2.second = 0) := by
  have h : (1 : ℚ) < |2| := by norm_num
  have e : sunRise avr (new ⟨0, 0, 0, 0, 0, 0, 0, 0⟩) ⟨30, 15, 10, 21, 12, 20⟩ 2 0 =
      (false, ⟨30, 15, 10, 21, 12, 20⟩) := by
    unfold sunRise computeSun
    rw [if_pos h]
  rw [e]
  decide

/-- C15, amended: `sunRise` and `sunSet` return false exactly when the magnitude
of the hour-angle argument exceeds 1, and then all six fields of the Time Value
are unchanged: the failure check returns before hour, minute and second are
zeroed. -/
theorem sun_failure_unchanged (P : Platform) (c : Config) (when : Time) (ha : ℚ)
    (minutes : Int) :
    ((sunRise P c when ha minutes).1 = false ↔ 1 < |ha|) ∧
      ((sunSet P c when ha minutes).1 = false ↔ 1 < |ha|) ∧
      ((sunRise P c when ha minutes).1 = false → (sunRise P c when ha minutes).2 = when) ∧
      ((sunSet P c when ha minutes).1 = false → (sunSet P c when ha minutes).2 = when) := by
  unfold sunRise sunSet computeSun
  split_ifs with h
  · simp [h]
  · simp [h]

/-- Instance of amended C15: `sunSet` with hour-angle argument -3/2 on
2020-06-21 10:15:30 fails and leaves the array as it was. -/
theorem sun_failure_unchanged_witness :
    (1 : ℚ) < |(-3 / 2 : ℚ)| ∧
      (sunSet avr (new ⟨0, 0, 0, 0, 0, 0, 0, 0⟩) ⟨30, 15, 10, 21, 6, 20⟩ (-3 / 2) 700).1 = false ∧
      (sunSet avr (new ⟨0, 0, 0, 0, 0, 0, 0, 0⟩) ⟨30, 15, 10, 21, 6, 20⟩ (-3 / 2) 700).2 =
        ⟨30, 15, 10, 21, 6, 20⟩ :=
  have hw : (1 : ℚ) < |(-3 / 2 : ℚ)| := by
    rw [abs_of_neg (by norm_num)]
    norm_num
  have h := sun_failure_unchanged avr (new ⟨0, 0, 0, 0, 0, 0, 0, 0⟩) ⟨30, 15, 10, 21, 6, 20⟩
    (-3 / 2) 700
  ⟨hw, h.2.1.2 hw, h.2.2.2 (h.2.1.2 hw)⟩

/-! ## Moon phase -/

/-- From the reference new moon on, `moonPhase` is the fractional part of the
number of lunar cycles since Jan 6, 2000 and lies in [0, 1). -/
theorem moonPhase_fract (P : Platform) (t : Time)
    (h : 0 ≤ dayNumber P (2000 + t.year) t.month t.day - dayNumber P 2000 1 6) :
    moonPhase P t =
        Int.fract (((dayNumber P (2000 + t.year) t.month t.day - dayNumber P 2000 1 6 : Int) : ℚ)
          / (29530588853 / 1000000000)) ∧
      0 ≤ moonPhase P t ∧ moonPhase P t < 1 := by
  have hp : (0 : ℚ) ≤ ((dayNumber P (2000 + t.year) t.month t.day - dayNumber P 2000 1 6 : Int) : ℚ)
      / (29530588853 / 1000000000) := by
    apply div_nonneg
    · exact_mod_cast h
    · norm_num
  have e : moonPhase P t =
      Int.fract (((dayNumber P (2000 + t.year) t.month t.day - dayNumber P 2000 1 6 : Int) : ℚ)
        / (29530588853 / 1000000000)) := by
    unfold moonPhase truncQ
    simp only
    rw [if_pos hp]
    rfl
  rw [e]
  exact ⟨rfl, Int.fract_nonneg _, Int.fract_lt_one _⟩

/-- C14 fails before the reference new moon: on Jan 1, 2000 `moonPhase` (with
exact division) is -5000000000/29530588853, a negative value, because the
conversion to `long` truncates -0.169... to 0; on Jan 6, 2000 it is 0. -/
theorem moonPhase_negative_before_new_moon (P : Platform) :
    moonPhase P ⟨0, 0, 0, 1, 1, 0⟩ = -5000000000 / 29530588853 ∧
      moonPhase P ⟨0, 0, 0, 1, 1, 0⟩ < 0 ∧ moonPhase P ⟨0, 0, 0, 6, 1, 0⟩ = 0 := by
  have h1 := dayNumber_eq P 0 1 1 (by omega) (by omega) (by omega) (by omega)
  have h6 := dayNumber_eq P 0 1 6 (by omega) (by omega) (by omega) (by omega)
  simp only [Nat.add_zero] at h1 h6
  have d1 : dayNumber P 2000 1 1 - dayNumber P 2000 1 6 = -5 := by
    rw [h1, h6]; norm_num
  have e1 : moonPhase P ⟨0, 0, 0, 1, 1, 0⟩ = -5000000000 / 29530588853 := by
    unfold moonPhase
    simp only [Nat.add_zero, d1]
    have hc : truncQ (((-5 : Int) : ℚ) / (29530588853 / 1000000000)) = 0 := by
      unfold truncQ
      rw [if_neg (by norm_num)]
      rw [Int.ceil_eq_iff]
      constructor <;> norm_num
    rw [hc]
    norm_num
  have e6 : moonPhase P ⟨0, 0, 0, 6, 1, 0⟩ = 0 := by
    unfold moonPhase
    simp [truncQ]
  rw [e1]
  exact ⟨rfl, by norm_num, e6⟩

/-! ## Day underflow -/

/-- Stepping back one day from 00:00 on the first of a month other than January
lands on the last day of the previous month. -/
theorem adjust_day_back (P : Platform) (hP : 16 ≤ P.intBits) (s mo y : Nat) (hmo2 : 2 ≤ mo)
    (hmo : mo ≤ 12) (hy : y < 100) :
    adjust P ⟨s, 0, 0, 1, mo, y⟩ (-1440) = ⟨s, 0, 0, monthLen (mo - 1) y, mo - 1, y⟩ := by
  have hb := monthLen_bounds (mo - 1) y
  unfold adjust
  simp only
  rw [adjustMinute_eq P hP _ _ _ _ _ _ _ (by omega) (by omega)]
  simp only
  have hq : Int.tdiv (((0 : Nat) : Int) + (-1440)) 60 = -24 := by decide
  have hf : foldMod 60 (((0 : Nat) : Int) + (-1440)) = 0 := by decide
  rw [hq, hf, adjustHour_eq P hP _ _ _ _ _ _ _ (by omega) (by omega)]
  simp only
  have hr : Int.tdiv ((-24 : Int) + ((0 : Nat) : Int)) 24 = -1 := by decide
  have hg : foldMod 24 ((-24 : Int) + ((0 : Nat) : Int)) = 0 := by decide
  rw [hr, hg, adjustDay_under _ _ _ _ _ _ _ (by omega)]
  have e1 : u8 ((mo : Int) - 1) = mo - 1 := by unfold u8; omega
  rw [e1]
  have e2 : u8 ((-1 : Int) + ((1 : Nat) : Int) + (monthLen (mo - 1) y : Int)) =
      monthLen (mo - 1) y := by unfold u8; omega
  rw [e2, adjustYear_eq _ _ _ _ _ _ (by omega), if_neg (by omega), if_neg (by omega)]
  simp only [Int.toNat_zero, Time.mk.injEq, true_and]
  omega

/-- C16 fails in January: one day before 2005-01-01 00:00 the code yields
2004-12-30 00:00, day 30 where December has 31 days, because the length of the
previous month is read while the month field is 0. One day before 2004-03-01
it yields 2004-02-29, as the claim says. -/
theorem adjust_january_underflow_broken :
    adjust avr ⟨0, 0, 0, 1, 1, 5⟩ (-1440) = ⟨0, 0, 0, 30, 12, 4⟩ ∧
      adjust arm ⟨0, 0, 0, 1, 1, 5⟩ (-1440) = ⟨0, 0, 0, 30, 12, 4⟩ ∧
      lengthOfMonth ⟨0, 0, 0, 30, 12, 4⟩ = 31 ∧
      lengthOfMonth ⟨0, 0, 0, 1, 0, 5⟩ = 30 ∧
      adjust avr ⟨0, 0, 0, 1, 3, 4⟩ (-1440) = ⟨0, 0, 0, 29, 2, 4⟩ := by
  decide

end TimeLord
